import Mathlib

/-
Verification of the differential-lines particle system (src/src/main.rs).

The Rust code is shallowly embedded: `f32` scalars are modelled as real
numbers, the parallel `Vec`s of the `ParticleSystem` struct as Lean lists,
and the ambient `random_f32()` source as an explicit stream of reals that
is threaded through the functions that draw from it.  List reads use
`List.getD` (Rust panics out of bounds; the structural invariants proved
below show every access performed by the program is in bounds, so the
default value is never produced).
-/

namespace DiffLines

/-- 2D vector / point, modelling nannou `Vector2` / `Point2` over ℝ. -/
@[ext]
structure Vec2 where
  x : ℝ
  y : ℝ

noncomputable def Vec2.zero : Vec2 := ⟨0, 0⟩

noncomputable def Vec2.add (a b : Vec2) : Vec2 := ⟨a.x + b.x, a.y + b.y⟩

noncomputable def Vec2.sub (a b : Vec2) : Vec2 := ⟨a.x - b.x, a.y - b.y⟩

noncomputable def Vec2.smul (a : Vec2) (c : ℝ) : Vec2 := ⟨a.x * c, a.y * c⟩

noncomputable def Vec2.divS (a : Vec2) (c : ℝ) : Vec2 := ⟨a.x / c, a.y / c⟩

/-- Euclidean norm, modelling nannou `magnitude()`. -/
noncomputable def Vec2.magnitude (a : Vec2) : ℝ := Real.sqrt (a.x ^ 2 + a.y ^ 2)

/-- Models nannou `limit_magnitude`: scale the vector down to the given
magnitude when its magnitude exceeds it, otherwise return it unchanged. -/
noncomputable def Vec2.limit_magnitude (a : Vec2) (limit : ℝ) : Vec2 :=
  if limit < a.magnitude then a.smul (limit / a.magnitude) else a

/-- 4-channel color, modelling nannou `Rgba<f32>`. -/
@[ext]
structure Rgba where
  red : ℝ
  green : ℝ
  blue : ℝ
  alpha : ℝ

noncomputable def Rgba.add (a b : Rgba) : Rgba :=
  ⟨a.red + b.red, a.green + b.green, a.blue + b.blue, a.alpha + b.alpha⟩

noncomputable def Rgba.divS (a : Rgba) (c : ℝ) : Rgba :=
  ⟨a.red / c, a.green / c, a.blue / c, a.alpha / c⟩

/-- The ambient `random_f32()` source, modelled as a stream of reals with a
cursor; `next` returns the current draw and advances the cursor. -/
structure Rng where
  seq : ℕ → ℝ
  idx : ℕ

def Rng.next (g : Rng) : ℝ × Rng := (g.seq g.idx, ⟨g.seq, g.idx + 1⟩)

/-- `fn wrap(num: i32, max: i32) -> usize` from main.rs. -/
def wrap (num mx : ℤ) : ℕ :=
  (if num < 0 then mx - 1 else if num = mx then 0 else num).toNat

/-- The `ParticleSystem` struct: parallel arrays indexed by particle id. -/
structure ParticleSystem where
  particle_radius : ℝ
  influence_radius : ℝ
  max_pressure_index : ℕ
  max_attraction_index : ℕ
  max_neighbors_index : ℕ
  num_particles : ℕ
  positions : List Vec2
  colors : List Rgba
  edges : List (ℕ × ℕ)
  pressures : List Vec2
  attractions : List Vec2
  num_neighbors : List ℕ

/-- `ParticleSystem::new()`. -/
noncomputable def ParticleSystem.new : ParticleSystem where
  particle_radius := 4
  influence_radius := 12
  max_pressure_index := 0
  max_attraction_index := 0
  max_neighbors_index := 0
  num_particles := 0
  positions := []
  colors := []
  edges := []
  pressures := []
  attractions := []
  num_neighbors := []

/-- `ParticleSystem::add_particle`: push one entry onto each parallel array
and bump the count. -/
noncomputable def ParticleSystem.add_particle (s : ParticleSystem) (position : Vec2)
    (color : Rgba) (edges : ℕ × ℕ) (pressure attraction : Vec2) : ParticleSystem :=
  { s with
    positions := s.positions ++ [position]
    colors := s.colors ++ [color]
    edges := s.edges ++ [edges]
    pressures := s.pressures ++ [pressure]
    attractions := s.attractions ++ [attraction]
    num_neighbors := s.num_neighbors ++ [0]
    num_particles := s.num_particles + 1 }

/-- Body of the seeding loop in `ParticleSystem::spawn_particles`; the fold
state carries the system, the accumulated angle `phi` and the random stream. -/
noncomputable def spawnStep (num_particles : ℕ) (spawn_radius delta_phi : ℝ)
    (st : ParticleSystem × ℝ × Rng) (i : ℕ) : ParticleSystem × ℝ × Rng :=
  let s := st.1
  let phi := st.2.1
  let g := st.2.2
  let direction : Vec2 := ⟨Real.cos phi, Real.sin phi⟩
  let offset := Real.sin (phi * 6.2) * 50
  let position := direction.smul (spawn_radius + offset)
  let d1 := g.next
  let l := d1.1 * 0.8 + 0.1
  let d2 := d1.2.next
  let d3 := d2.2.next
  let color : Rgba := ⟨l, l - d2.1 * 0.2, l - d3.1 * 0.1, 1⟩
  let prev_particle := wrap ((i : ℤ) - 1) (num_particles : ℤ)
  let next_particle := wrap ((i : ℤ) + 1) (num_particles : ℤ)
  (s.add_particle position color (prev_particle, next_particle) Vec2.zero Vec2.zero,
    phi + delta_phi, d3.2)

/-- `ParticleSystem::spawn_particles`. -/
noncomputable def ParticleSystem.spawn_particles (s : ParticleSystem)
    (num_particles : ℕ) (spawn_radius : ℝ) (g : Rng) : ParticleSystem × Rng :=
  let delta_phi := (2 * Real.pi) / (num_particles : ℝ)
  let r := (List.range num_particles).foldl
    (spawnStep num_particles spawn_radius delta_phi) (s, 0, g)
  ({ r.1 with num_particles := num_particles }, r.2.2)

/-- `ParticleSystem::get_neighbors_of_particle`: scan all ids, skip the
particle itself, keep every other id whose position is within
`influence_radius` of it. -/
noncomputable def ParticleSystem.get_neighbors_of_particle (s : ParticleSystem)
    (index : ℕ) : List ℕ :=
  (List.range s.num_particles).foldl (fun neighbors j =>
    if index = j then neighbors
    else if (Vec2.sub (s.positions.getD index Vec2.zero)
        (s.positions.getD j Vec2.zero)).magnitude ≤ s.influence_radius
      then neighbors ++ [j] else neighbors) []

/-- Lines 113-117 of `update`: record the neighbor count and update the
running max-neighbor index. -/
def recordNeighbors (s : ParticleSystem) (i : ℕ) (neighbors : List ℕ) : ParticleSystem :=
  let s1 := { s with num_neighbors := s.num_neighbors.set i neighbors.length }
  if s1.num_neighbors.getD s1.max_neighbors_index 0 < neighbors.length
    then { s1 with max_neighbors_index := i } else s1

/-- The attraction vector of lines 119-122 of `update`: midpoint of the two
linked neighbors' positions in `old_positions` minus the particle's own
position in `old_positions`. -/
noncomputable def attrVec (old_positions : List Vec2) (s : ParticleSystem) (i : ℕ) : Vec2 :=
  let e := s.edges.getD i (0, 0)
  Vec2.sub
    (Vec2.divS (Vec2.add (old_positions.getD e.1 Vec2.zero)
      (old_positions.getD e.2 Vec2.zero)) 2)
    (old_positions.getD i Vec2.zero)

/-- Lines 119-127 of `update`: attraction toward the midpoint of the two
linked neighbors, computed from the frozen start-of-step positions. -/
noncomputable def applyAttraction (old_positions : List Vec2) (s : ParticleSystem)
    (i : ℕ) : ParticleSystem :=
  let attraction := attrVec old_positions s i
  let s1 := { s with attractions := s.attractions.set i attraction }
  let moved := Vec2.add (s1.positions.getD i Vec2.zero) (attraction.smul 0.6)
  let s2 := { s1 with positions := s1.positions.set i moved }
  if (s2.attractions.getD s2.max_attraction_index Vec2.zero).magnitude < attraction.magnitude
    then { s2 with max_attraction_index := i } else s2

/-- The repulsion sum of lines 130-134 of `update`, over the current
(in-loop) positions of `s`. -/
noncomputable def pressureSum (s : ParticleSystem) (i : ℕ) (neighbors : List ℕ) : Vec2 :=
  neighbors.foldl (fun pr j =>
    Vec2.add pr (Vec2.divS
      (Vec2.sub (s.positions.getD i Vec2.zero) (s.positions.getD j Vec2.zero))
      (s.influence_radius * 0.5))) Vec2.zero

/-- The pressure vector of lines 129-137 of `update`: the repulsion sum,
magnitude-limited to 2. -/
noncomputable def pressVec (s : ParticleSystem) (i : ℕ) (neighbors : List ℕ) : Vec2 :=
  (pressureSum s i neighbors).limit_magnitude 2

/-- Lines 129-142 of `update`: magnitude-limited pressure, applied to the
position, and the running max-pressure index. -/
noncomputable def applyPressure (s : ParticleSystem) (i : ℕ) (neighbors : List ℕ) :
    ParticleSystem :=
  let pressure := pressVec s i neighbors
  let s1 := { s with pressures := s.pressures.set i pressure }
  let moved := Vec2.add (s1.positions.getD i Vec2.zero) (pressure.smul 0.2)
  let s2 := { s1 with positions := s1.positions.set i moved }
  if (s2.pressures.getD s2.max_pressure_index Vec2.zero).magnitude < pressure.magnitude
    then { s2 with max_pressure_index := i } else s2

/-- One iteration of the first loop of `update` (lines 111-143). -/
noncomputable def stepBody (old_positions : List Vec2) (s : ParticleSystem) (i : ℕ) :
    ParticleSystem :=
  let neighbors := s.get_neighbors_of_particle i
  applyPressure (applyAttraction old_positions (recordNeighbors s i neighbors) i) i neighbors

/-- One iteration of the coloring loop of `update` (lines 145-154).  The
normalized neighbor count `nn` is computed by the source but not used in the
color. -/
noncomputable def colorStep (s : ParticleSystem) (i : ℕ) : ParticleSystem :=
  let p := (s.pressures.getD i Vec2.zero).magnitude /
    (s.pressures.getD s.max_pressure_index Vec2.zero).magnitude
  let a := (s.attractions.getD i Vec2.zero).magnitude /
    (s.attractions.getD s.max_attraction_index Vec2.zero).magnitude
  let nn := 1 - (s.num_neighbors.getD i 0 : ℝ) /
    (s.num_neighbors.getD s.max_neighbors_index 0 : ℝ)
  { s with colors := s.colors.set i ⟨p, a, p * a + 0.1, 1⟩ }

/-- `ParticleSystem::split_at`: insert a new particle on the edge
`(p0, p1)` and rewire the two endpoints to it. -/
noncomputable def ParticleSystem.split_at (s : ParticleSystem) (p0 p1 : ℕ) :
    ParticleSystem :=
  let new_index := s.positions.length
  let position := Vec2.add (Vec2.add
    (Vec2.divS (Vec2.add (s.positions.getD p0 Vec2.zero) (s.positions.getD p1 Vec2.zero)) 2)
    (s.pressures.getD p0 Vec2.zero)) (s.pressures.getD p1 Vec2.zero)
  let color := Rgba.divS (Rgba.add (s.colors.getD p0 ⟨0, 0, 0, 0⟩)
    (s.colors.getD p1 ⟨0, 0, 0, 0⟩)) 2
  let new_edges := (p0, p1)
  let s1 := { s with edges := s.edges.set p0 ((s.edges.getD p0 (0, 0)).1, new_index) }
  let s2 := { s1 with edges := s1.edges.set p1 (new_index, (s1.edges.getD p1 (0, 0)).2) }
  s2.add_particle position color new_edges Vec2.zero Vec2.zero

/-- One iteration of the splitting loop of `update` (lines 156-171): the
condition is a sparsity test on the two endpoints' neighbor counts gated by
a random draw (`&&` short-circuits, so the draw happens only when the
sparsity test passes).  `avg_pressure`, `relative_magnitude` and `tolerance`
are computed by the source but unused. -/
noncomputable def splitStep (st : ParticleSystem × Rng) (e : ℕ) : ParticleSystem × Rng :=
  let s := st.1
  let p0 := e
  let p1 := (s.edges.getD e (0, 0)).2
  let avg_pressure := Vec2.divS
    (Vec2.add (s.pressures.getD p0 Vec2.zero) (s.pressures.getD p1 Vec2.zero)) 2
  let relative_magnitude := avg_pressure.magnitude /
    (s.pressures.getD s.max_pressure_index Vec2.zero).magnitude
  let tolerance := (0.05 : ℝ)
  if s.num_neighbors.getD p0 0 + s.num_neighbors.getD p1 0 < 16 then
    let d := st.2.next
    if d.1 < 0.05 then (s.split_at p0 p1, d.2) else (s, d.2)
  else st

/-- `ParticleSystem::update`: force integration over the frozen
`old_positions` snapshot, then coloring, then the splitting loop. -/
noncomputable def ParticleSystem.update (s : ParticleSystem) (g : Rng) :
    ParticleSystem × Rng :=
  let old_positions := s.positions
  let s1 := (List.range s.num_particles).foldl (stepBody old_positions) s
  let s2 := (List.range s1.num_particles).foldl colorStep s1
  (List.range s2.edges.length).foldl splitStep (s2, g)

/-- `k` successive calls of `update`, as the host's per-tick loop performs. -/
noncomputable def runSteps (s : ParticleSystem) (g : Rng) : ℕ → ParticleSystem × Rng
  | 0 => (s, g)
  | k + 1 =>
    let r := runSteps s g k
    r.1.update r.2

/-- The state reached inside iteration `i` of the first loop of `update`,
after the neighbor count and the attraction have been processed but before
the pressure: the state whose positions the pressure sum reads. -/
noncomputable def midState (old_positions : List Vec2) (s : ParticleSystem) (i : ℕ) :
    ParticleSystem :=
  applyAttraction old_positions (recordNeighbors s i (s.get_neighbors_of_particle i)) i

/-- The first loop of `update` (force integration). -/
noncomputable def phase1 (s : ParticleSystem) : ParticleSystem :=
  (List.range s.num_particles).foldl (stepBody s.positions) s

/-- The coloring loop of `update`. -/
noncomputable def phase2 (s : ParticleSystem) : ParticleSystem :=
  (List.range s.num_particles).foldl colorStep s

/-- The splitting loop of `update`. -/
noncomputable def phase3 (s : ParticleSystem) (g : Rng) : ParticleSystem × Rng :=
  (List.range s.edges.length).foldl splitStep (s, g)

theorem stepBody_eq (old_positions : List Vec2) (s : ParticleSystem) (i : ℕ) :
    stepBody old_positions s i =
      applyPressure (midState old_positions s i) i (s.get_neighbors_of_particle i) := rfl

theorem update_eq (s : ParticleSystem) (g : Rng) :
    s.update g = phase3 (phase2 (phase1 s)) g := rfl

/-- All six parallel arrays have length `num_particles`. -/
def lengthsOk (s : ParticleSystem) : Prop :=
  s.positions.length = s.num_particles ∧ s.colors.length = s.num_particles ∧
  s.edges.length = s.num_particles ∧ s.pressures.length = s.num_particles ∧
  s.attractions.length = s.num_particles ∧ s.num_neighbors.length = s.num_particles

/-- Every id stored in `edges` is a valid particle id. -/
def edgesValid (s : ParticleSystem) : Prop :=
  ∀ i, i < s.num_particles →
    (s.edges.getD i (0, 0)).1 < s.num_particles ∧
    (s.edges.getD i (0, 0)).2 < s.num_particles

/-- Topology closure: `next(prev(i)) = i` and `prev(next(i)) = i`. -/
def closedTopology (s : ParticleSystem) : Prop :=
  ∀ i, i < s.num_particles →
    (s.edges.getD (s.edges.getD i (0, 0)).1 (0, 0)).2 = i ∧
    (s.edges.getD (s.edges.getD i (0, 0)).2 (0, 0)).1 = i

/-- The structural invariant of the particle system. -/
def InvFull (s : ParticleSystem) : Prop :=
  lengthsOk s ∧ edgesValid s ∧ closedTopology s

theorem getD_set_self {α} (l : List α) (i : ℕ) (a d : α) (h : i < l.length) :
    (l.set i a).getD i d = a := by
  simp [List.getD_eq_getElem?_getD, List.getElem?_set_self', List.getElem?_eq_getElem h]

theorem getD_set_ne {α} (l : List α) {i j : ℕ} (a d : α) (h : i ≠ j) :
    (l.set i a).getD j d = l.getD j d := by
  simp [List.getD_eq_getElem?_getD, List.getElem?_set_ne h]

theorem getD_append_lt {α} (l : List α) (i : ℕ) (a d : α) (h : i < l.length) :
    (l ++ [a]).getD i d = l.getD i d := by
  simp [List.getD_eq_getElem?_getD, List.getElem?_append_left h]

theorem getD_append_len {α} (l : List α) (a d : α) :
    (l ++ [a]).getD l.length d = a := by
  simp [List.getD_eq_getElem?_getD]

theorem getD_of_le_length {α} (l : List α) (i : ℕ) (d : α) (h : l.length ≤ i) :
    l.getD i d = d := by
  simp [List.getD_eq_getElem?_getD, List.getElem?_eq_none h]

theorem recordNeighbors_spec (s : ParticleSystem) (i : ℕ) (nb : List ℕ) :
    (recordNeighbors s i nb).positions = s.positions ∧
    (recordNeighbors s i nb).colors = s.colors ∧
    (recordNeighbors s i nb).edges = s.edges ∧
    (recordNeighbors s i nb).pressures = s.pressures ∧
    (recordNeighbors s i nb).attractions = s.attractions ∧
    (recordNeighbors s i nb).num_neighbors = s.num_neighbors.set i nb.length ∧
    (recordNeighbors s i nb).num_particles = s.num_particles ∧
    (recordNeighbors s i nb).influence_radius = s.influence_radius := by
  unfold recordNeighbors
  dsimp only
  split <;> simp

theorem applyAttraction_spec (old_positions : List Vec2) (s : ParticleSystem) (i : ℕ) :
    (applyAttraction old_positions s i).positions =
      s.positions.set i
        (Vec2.add (s.positions.getD i Vec2.zero) ((attrVec old_positions s i).smul 0.6)) ∧
    (applyAttraction old_positions s i).colors = s.colors ∧
    (applyAttraction old_positions s i).edges = s.edges ∧
    (applyAttraction old_positions s i).pressures = s.pressures ∧
    (applyAttraction old_positions s i).attractions =
      s.attractions.set i (attrVec old_positions s i) ∧
    (applyAttraction old_positions s i).num_neighbors = s.num_neighbors ∧
    (applyAttraction old_positions s i).num_particles = s.num_particles ∧
    (applyAttraction old_positions s i).influence_radius = s.influence_radius := by
  unfold applyAttraction
  dsimp only
  split <;> simp

theorem applyPressure_spec (s : ParticleSystem) (i : ℕ) (nb : List ℕ) :
    (applyPressure s i nb).positions =
      s.positions.set i
        (Vec2.add (s.positions.getD i Vec2.zero) ((pressVec s i nb).smul 0.2)) ∧
    (applyPressure s i nb).colors = s.colors ∧
    (applyPressure s i nb).edges = s.edges ∧
    (applyPressure s i nb).pressures = s.pressures.set i (pressVec s i nb) ∧
    (applyPressure s i nb).attractions = s.attractions ∧
    (applyPressure s i nb).num_neighbors = s.num_neighbors ∧
    (applyPressure s i nb).num_particles = s.num_particles ∧
    (applyPressure s i nb).influence_radius = s.influence_radius := by
  unfold applyPressure
  dsimp only
  split <;> simp

/-- Fields of the system that iteration `i` of the force loop leaves
untouched, and the lengths it preserves. -/
theorem stepBody_pres (old_positions : List Vec2) (s : ParticleSystem) (i : ℕ) :
    (stepBody old_positions s i).colors = s.colors ∧
    (stepBody old_positions s i).edges = s.edges ∧
    (stepBody old_positions s i).num_particles = s.num_particles ∧
    (stepBody old_positions s i).influence_radius = s.influence_radius ∧
    (stepBody old_positions s i).positions.length = s.positions.length ∧
    (stepBody old_positions s i).pressures.length = s.pressures.length ∧
    (stepBody old_positions s i).attractions.length = s.attractions.length ∧
    (stepBody old_positions s i).num_neighbors.length = s.num_neighbors.length := by
  rw [stepBody_eq]
  have hP := applyPressure_spec (midState old_positions s i) i (s.get_neighbors_of_particle i)
  have hA := applyAttraction_spec old_positions
    (recordNeighbors s i (s.get_neighbors_of_particle i)) i
  have hR := recordNeighbors_spec s i (s.get_neighbors_of_particle i)
  unfold midState at hP ⊢
  obtain ⟨p1, p2, p3, p4, p5, p6, p7, p8⟩ := hP
  obtain ⟨a1, a2, a3, a4, a5, a6, a7, a8⟩ := hA
  obtain ⟨r1, r2, r3, r4, r5, r6, r7, r8⟩ := hR
  refine ⟨?_, ?_, ?_, ?_, ?_, ?_, ?_, ?_⟩ <;>
    simp [p1, p2, p3, p4, p5, p6, p7, p8, a1, a2, a3, a4, a5, a6, a7, a8,
      r1, r2, r3, r4, r5, r6, r7, r8]

theorem foldl_stepBody_pres (old_positions : List Vec2) (l : List ℕ) :
    ∀ s : ParticleSystem,
    (l.foldl (stepBody old_positions) s).colors = s.colors ∧
    (l.foldl (stepBody old_positions) s).edges = s.edges ∧
    (l.foldl (stepBody old_positions) s).num_particles = s.num_particles ∧
    (l.foldl (stepBody old_positions) s).influence_radius = s.influence_radius ∧
    (l.foldl (stepBody old_positions) s).positions.length = s.positions.length ∧
    (l.foldl (stepBody old_positions) s).pressures.length = s.pressures.length ∧
    (l.foldl (stepBody old_positions) s).attractions.length = s.attractions.length ∧
    (l.foldl (stepBody old_positions) s).num_neighbors.length = s.num_neighbors.length := by
  induction l with
  | nil => intro s; simp
  | cons a t ih =>
    intro s
    have h1 := stepBody_pres old_positions s a
    have h2 := ih (stepBody old_positions s a)
    simp only [List.foldl_cons]
    exact ⟨h2.1.trans h1.1, h2.2.1.trans h1.2.1, h2.2.2.1.trans h1.2.2.1,
      h2.2.2.2.1.trans h1.2.2.2.1, h2.2.2.2.2.1.trans h1.2.2.2.2.1,
      h2.2.2.2.2.2.1.trans h1.2.2.2.2.2.1, h2.2.2.2.2.2.2.1.trans h1.2.2.2.2.2.2.1,
      h2.2.2.2.2.2.2.2.trans h1.2.2.2.2.2.2.2⟩

theorem colorStep_spec (s : ParticleSystem) (i : ℕ) :
    (colorStep s i).positions = s.positions ∧
    (colorStep s i).colors.length = s.colors.length ∧
    (colorStep s i).edges = s.edges ∧
    (colorStep s i).pressures = s.pressures ∧
    (colorStep s i).attractions = s.attractions ∧
    (colorStep s i).num_neighbors = s.num_neighbors ∧
    (colorStep s i).num_particles = s.num_particles ∧
    (colorStep s i).influence_radius = s.influence_radius := by
  unfold colorStep
  simp

theorem foldl_colorStep_pres (l : List ℕ) :
    ∀ s : ParticleSystem,
    (l.foldl colorStep s).positions = s.positions ∧
    (l.foldl colorStep s).colors.length = s.colors.length ∧
    (l.foldl colorStep s).edges = s.edges ∧
    (l.foldl colorStep s).pressures = s.pressures ∧
    (l.foldl colorStep s).attractions = s.attractions ∧
    (l.foldl colorStep s).num_neighbors = s.num_neighbors ∧
    (l.foldl colorStep s).num_particles = s.num_particles ∧
    (l.foldl colorStep s).influence_radius = s.influence_radius := by
  induction l with
  | nil => intro s; simp
  | cons a t ih =>
    intro s
    have h1 := colorStep_spec s a
    have h2 := ih (colorStep s a)
    simp only [List.foldl_cons]
    exact ⟨h2.1.trans h1.1, h2.2.1.trans h1.2.1, h2.2.2.1.trans h1.2.2.1,
      h2.2.2.2.1.trans h1.2.2.2.1, h2.2.2.2.2.1.trans h1.2.2.2.2.1,
      h2.2.2.2.2.2.1.trans h1.2.2.2.2.2.1, h2.2.2.2.2.2.2.1.trans h1.2.2.2.2.2.2.1,
      h2.2.2.2.2.2.2.2.trans h1.2.2.2.2.2.2.2⟩

theorem add_particle_spec (s : ParticleSystem) (pos : Vec2) (col : Rgba)
    (ed : ℕ × ℕ) (pr att : Vec2) :
    (s.add_particle pos col ed pr att).num_particles = s.num_particles + 1 ∧
    (s.add_particle pos col ed pr att).positions = s.positions ++ [pos] ∧
    (s.add_particle pos col ed pr att).colors = s.colors ++ [col] ∧
    (s.add_particle pos col ed pr att).edges = s.edges ++ [ed] ∧
    (s.add_particle pos col ed pr att).pressures = s.pressures ++ [pr] ∧
    (s.add_particle pos col ed pr att).attractions = s.attractions ++ [att] ∧
    (s.add_particle pos col ed pr att).num_neighbors = s.num_neighbors ++ [0] ∧
    (s.add_particle pos col ed pr att).influence_radius = s.influence_radius :=
  ⟨rfl, rfl, rfl, rfl, rfl, rfl, rfl, rfl⟩

theorem split_at_edges (s : ParticleSystem) (p0 p1 : ℕ) :
    (s.split_at p0 p1).edges =
      ((s.edges.set p0 ((s.edges.getD p0 (0, 0)).1, s.positions.length)).set p1
        (s.positions.length,
          ((s.edges.set p0 ((s.edges.getD p0 (0, 0)).1, s.positions.length)).getD p1 (0, 0)).2))
      ++ [(p0, p1)] := rfl

theorem split_at_basic (s : ParticleSystem) (p0 p1 : ℕ) :
    (s.split_at p0 p1).num_particles = s.num_particles + 1 ∧
    (s.split_at p0 p1).influence_radius = s.influence_radius ∧
    (s.split_at p0 p1).edges.length = s.edges.length + 1 ∧
    (s.split_at p0 p1).positions.length = s.positions.length + 1 ∧
    (s.split_at p0 p1).colors.length = s.colors.length + 1 ∧
    (s.split_at p0 p1).pressures.length = s.pressures.length + 1 ∧
    (s.split_at p0 p1).attractions.length = s.attractions.length + 1 ∧
    (s.split_at p0 p1).num_neighbors.length = s.num_neighbors.length + 1 := by
  refine ⟨rfl, rfl, ?_, ?_, ?_, ?_, ?_, ?_⟩ <;>
    simp [ParticleSystem.split_at, ParticleSystem.add_particle]

theorem split_at_lengthsOk (s : ParticleSystem) (p0 p1 : ℕ) (h : lengthsOk s) :
    lengthsOk (s.split_at p0 p1) := by
  obtain ⟨h1, h2, h3, h4, h5, h6⟩ := h
  have hb := split_at_basic s p0 p1
  exact ⟨hb.2.2.2.1.trans (by omega), hb.2.2.2.2.1.trans (by omega),
    hb.2.2.1.trans (by omega), hb.2.2.2.2.2.1.trans (by omega),
    hb.2.2.2.2.2.2.1.trans (by omega), hb.2.2.2.2.2.2.2.trans (by omega)⟩

theorem split_at_spec (s : ParticleSystem) (p0 p1 : ℕ)
    (hlen : s.positions.length = s.num_particles)
    (helen : s.edges.length = s.num_particles)
    (hp0 : p0 < s.num_particles) (hp1 : p1 < s.num_particles) :
    (s.split_at p0 p1).edges.getD s.num_particles (0, 0) = (p0, p1) ∧
    ((s.split_at p0 p1).edges.getD p0 (0, 0)).2 = s.num_particles ∧
    ((s.split_at p0 p1).edges.getD p1 (0, 0)).1 = s.num_particles ∧
    (p0 ≠ p1 → ((s.split_at p0 p1).edges.getD p0 (0, 0)).1 = (s.edges.getD p0 (0, 0)).1) ∧
    (p0 ≠ p1 → ((s.split_at p0 p1).edges.getD p1 (0, 0)).2 = (s.edges.getD p1 (0, 0)).2) ∧
    (∀ i, i ≠ p0 → i ≠ p1 → i ≠ s.num_particles →
      (s.split_at p0 p1).edges.getD i (0, 0) = s.edges.getD i (0, 0)) := by
  have hp0' : p0 < s.edges.length := by omega
  have hp1' : p1 < s.edges.length := by omega
  set e1 := s.edges.set p0 ((s.edges.getD p0 (0, 0)).1, s.positions.length) with he1
  set e2 := e1.set p1 (s.positions.length, (e1.getD p1 (0, 0)).2) with he2
  have hle1 : e1.length = s.edges.length := by rw [he1]; simp
  have hle2 : e2.length = s.edges.length := by rw [he2]; simp [hle1]
  have hn : e2.length = s.num_particles := hle2.trans helen
  have hsplit : (s.split_at p0 p1).edges = e2 ++ [(p0, p1)] := split_at_edges s p0 p1
  have hp0e1 : p0 < e1.length := by omega
  have hp1e1 : p1 < e1.length := by omega
  have he1p0 : e1.getD p0 (0, 0) = ((s.edges.getD p0 (0, 0)).1, s.positions.length) := by
    rw [he1]; exact getD_set_self _ _ _ _ hp0'
  have he2p1 : e2.getD p1 (0, 0) = (s.positions.length, (e1.getD p1 (0, 0)).2) := by
    rw [he2]; exact getD_set_self _ _ _ _ hp1e1
  refine ⟨?_, ?_, ?_, ?_, ?_, ?_⟩
  · rw [hsplit, ← hn, getD_append_len]
  · rw [hsplit, getD_append_lt _ _ _ _ (by omega)]
    by_cases hpp : p0 = p1
    · rw [← hpp] at he2p1
      rw [he2p1, he1p0, hlen]
    · rw [he2, getD_set_ne _ _ _ (Ne.symm hpp), he1p0, hlen]
  · rw [hsplit, getD_append_lt _ _ _ _ (by omega), he2p1, hlen]
  · intro hpp
    rw [hsplit, getD_append_lt _ _ _ _ (by omega),
      he2, getD_set_ne _ _ _ (Ne.symm hpp), he1p0]
  · intro hpp
    rw [hsplit, getD_append_lt _ _ _ _ (by omega), he2p1, he1,
      getD_set_ne _ _ _ hpp]
  · intro i hi0 hi1 hin
    rcases lt_or_ge i s.num_particles with hilt | hige
    · rw [hsplit, getD_append_lt _ _ _ _ (by omega), he2,
        getD_set_ne _ _ _ (Ne.symm hi1), he1, getD_set_ne _ _ _ (Ne.symm hi0)]
    · have hige' : s.num_particles < i := lt_of_le_of_ne hige (Ne.symm hin)
      rw [hsplit, getD_of_le_length _ _ _ (by simp; omega),
        getD_of_le_length _ _ _ (by omega)]

/-- A split along an actual edge (`p1` is the successor of `p0`) preserves
the structural invariant, topology closure included. -/
theorem split_at_invFull (s : ParticleSystem) (p0 p1 : ℕ) (h : InvFull s)
    (hp0 : p0 < s.num_particles)
    (hnext : (s.edges.getD p0 (0, 0)).2 = p1) :
    InvFull (s.split_at p0 p1) := by
  obtain ⟨hlen, hvalid, hclosed⟩ := h
  have hp1 : p1 < s.num_particles := hnext ▸ (hvalid p0 hp0).2
  obtain ⟨d2, d3, d4, d5, d6, d7⟩ :=
    split_at_spec s p0 p1 hlen.1 hlen.2.2.1 hp0 hp1
  have hcount : (s.split_at p0 p1).num_particles = s.num_particles + 1 :=
    (split_at_basic s p0 p1).1
  have cprev : (s.edges.getD p1 (0, 0)).1 = p0 := by
    have := (hclosed p0 hp0).2
    rwa [hnext] at this
  refine ⟨split_at_lengthsOk s p0 p1 hlen, ?_, ?_⟩
  · -- edge validity
    intro i hi
    rw [hcount] at hi ⊢
    by_cases hin : i = s.num_particles
    · subst hin
      rw [d2]
      exact ⟨by omega, by omega⟩
    by_cases hi1 : p1 = i
    · subst hi1
      constructor
      · rw [d4]; omega
      · by_cases hpp : p0 = p1
        · subst hpp; rw [d3]; omega
        · rw [d6 hpp]
          have := (hvalid p1 hp1).2; omega
    by_cases hi0 : p0 = i
    · subst hi0
      constructor
      · rw [d5 (by omega)]
        have := (hvalid p0 hp0).1; omega
      · rw [d3]; omega
    · rw [d7 i (by omega) (by omega) (by omega)]
      have := hvalid i (by omega)
      omega
  · -- topology closure
    intro i hi
    rw [hcount] at hi
    by_cases hpp : p0 = p1
    · -- self-loop case: the old edge was a loop at p0
      subst hpp
      have hloop : (s.edges.getD p0 (0, 0)).1 = p0 := cprev
      by_cases hin : i = s.num_particles
      · subst hin
        rw [d2]
        constructor
        · simpa using d3
        · simpa using d4
      by_cases hi0 : p0 = i
      · subst hi0
        rw [d4, d3, d2]
        constructor <;> rfl
      · have hi' : i < s.num_particles := by omega
        have hci := hclosed i hi'
        have hva := (hvalid i hi').1
        have hvb := (hvalid i hi').2
        have ha : (s.edges.getD i (0, 0)).1 ≠ p0 := by
          intro hcon
          apply hi0
          have := hci.1
          rw [hcon, hnext] at this
          omega
        have hbne : (s.edges.getD i (0, 0)).2 ≠ p0 := by
          intro hcon
          apply hi0
          have := hci.2
          rw [hcon, hloop] at this
          omega
        rw [d7 i (by omega) (by omega) (by omega)]
        constructor
        · rw [d7 _ (by omega) (by omega) (by omega)]; exact hci.1
        · rw [d7 _ (by omega) (by omega) (by omega)]; exact hci.2
    · -- proper edge case: p0 ≠ p1
      have tp0a : ((s.split_at p0 p1).edges.getD p0 (0, 0)).1 = (s.edges.getD p0 (0, 0)).1 :=
        d5 hpp
      have tp1b : ((s.split_at p0 p1).edges.getD p1 (0, 0)).2 = (s.edges.getD p1 (0, 0)).2 :=
        d6 hpp
      by_cases hin : i = s.num_particles
      · subst hin
        rw [d2]
        constructor
        · simpa using d3
        · simpa using d4
      by_cases hi0 : p0 = i
      · subst hi0
        constructor
        · rw [tp0a]
          have hq := (hclosed p0 hp0).1
          have hqlt : (s.edges.getD p0 (0, 0)).1 < s.num_particles := (hvalid p0 hp0).1
          by_cases hq0 : (s.edges.getD p0 (0, 0)).1 = p0
          · exfalso
            rw [hq0, hnext] at hq
            exact hpp hq.symm
          by_cases hq1 : (s.edges.getD p0 (0, 0)).1 = p1
          · rw [hq1, tp1b, ← hq1]; exact hq
          · rw [d7 _ (by omega) (by omega) (by omega)]; exact hq
        · rw [d3, d2]
      by_cases hi1 : p1 = i
      · subst hi1
        constructor
        · rw [d4, d2]
        · rw [tp1b]
          have hr := (hclosed p1 hp1).2
          have hrlt : (s.edges.getD p1 (0, 0)).2 < s.num_particles := (hvalid p1 hp1).2
          by_cases hr1 : (s.edges.getD p1 (0, 0)).2 = p1
          · exfalso
            rw [hr1, cprev] at hr
            exact hpp hr
          by_cases hr0 : (s.edges.getD p1 (0, 0)).2 = p0
          · rw [hr0, tp0a, ← hr0]; exact hr
          · rw [d7 _ (by omega) (by omega) (by omega)]; exact hr
      · have hi' : i < s.num_particles := by omega
        have hci := hclosed i hi'
        have hva := (hvalid i hi').1
        have hvb := (hvalid i hi').2
        rw [d7 i (by omega) (by omega) (by omega)]
        constructor
        · have ha0 : (s.edges.getD i (0, 0)).1 ≠ p0 := by
            intro hcon
            apply hi1
            have := hci.1
            rw [hcon, hnext] at this
            omega
          by_cases ha1 : (s.edges.getD i (0, 0)).1 = p1
          · rw [ha1, tp1b, ← ha1]; exact hci.1
          · rw [d7 _ (by omega) (by omega) (by omega)]; exact hci.1
        · have hb1 : (s.edges.getD i (0, 0)).2 ≠ p1 := by
            intro hcon
            apply hi0
            have := hci.2
            rw [hcon, cprev] at this
            omega
          by_cases hb0 : (s.edges.getD i (0, 0)).2 = p0
          · rw [hb0, tp0a, ← hb0]; exact hci.2
          · rw [d7 _ (by omega) (by omega) (by omega)]; exact hci.2

theorem splitStep_cases (st : ParticleSystem × Rng) (e : ℕ) :
    (splitStep st e).1 = st.1 ∨
    (splitStep st e).1 = st.1.split_at e (st.1.edges.getD e (0, 0)).2 := by
  unfold splitStep
  dsimp only
  split
  · split
    · right; rfl
    · left; rfl
  · left; rfl

theorem splitStep_count (st : ParticleSystem × Rng) (e : ℕ) :
    st.1.num_particles ≤ (splitStep st e).1.num_particles ∧
    (splitStep st e).1.num_particles ≤ st.1.num_particles + 1 := by
  rcases splitStep_cases st e with h | h <;> rw [h]
  · omega
  · rw [(split_at_basic st.1 e _).1]
    omega

theorem splitStep_IR (st : ParticleSystem × Rng) (e : ℕ) :
    (splitStep st e).1.influence_radius = st.1.influence_radius := by
  rcases splitStep_cases st e with h | h <;> rw [h]
  exact (split_at_basic st.1 e _).2.1

theorem splitStep_invFull (st : ParticleSystem × Rng) (e : ℕ) (h : InvFull st.1)
    (he : e < st.1.num_particles) : InvFull (splitStep st e).1 := by
  rcases splitStep_cases st e with hc | hc <;> rw [hc]
  · exact h
  · exact split_at_invFull st.1 e _ h he rfl

theorem foldl_splitStep_count (l : List ℕ) :
    ∀ st : ParticleSystem × Rng,
    st.1.num_particles ≤ (l.foldl splitStep st).1.num_particles ∧
    (l.foldl splitStep st).1.num_particles ≤ st.1.num_particles + l.length := by
  induction l with
  | nil => intro st; simp
  | cons a t ih =>
    intro st
    have h1 := splitStep_count st a
    have h2 := ih (splitStep st a)
    simp only [List.foldl_cons, List.length_cons]
    omega

theorem foldl_splitStep_IR (l : List ℕ) :
    ∀ st : ParticleSystem × Rng,
    (l.foldl splitStep st).1.influence_radius = st.1.influence_radius := by
  induction l with
  | nil => intro st; rfl
  | cons a t ih =>
    intro st
    simp only [List.foldl_cons]
    exact (ih (splitStep st a)).trans (splitStep_IR st a)

theorem foldl_splitStep_invFull (l : List ℕ) :
    ∀ (st : ParticleSystem × Rng) (n0 : ℕ), (∀ e ∈ l, e < n0) →
    n0 ≤ st.1.num_particles → InvFull st.1 →
    InvFull (l.foldl splitStep st).1 := by
  induction l with
  | nil => intro st n0 _ _ h; exact h
  | cons a t ih =>
    intro st n0 hel hle h
    simp only [List.foldl_cons]
    have ha : a < st.1.num_particles :=
      lt_of_lt_of_le (hel a (by simp)) hle
    refine ih (splitStep st a) n0 (fun e he => hel e (by simp [he])) ?_
      (splitStep_invFull st a h ha)
    exact le_trans hle (splitStep_count st a).1

theorem phase1_spec (s : ParticleSystem) :
    (phase1 s).colors = s.colors ∧
    (phase1 s).edges = s.edges ∧
    (phase1 s).num_particles = s.num_particles ∧
    (phase1 s).influence_radius = s.influence_radius ∧
    (phase1 s).positions.length = s.positions.length ∧
    (phase1 s).pressures.length = s.pressures.length ∧
    (phase1 s).attractions.length = s.attractions.length ∧
    (phase1 s).num_neighbors.length = s.num_neighbors.length :=
  foldl_stepBody_pres s.positions (List.range s.num_particles) s

theorem phase2_spec (s : ParticleSystem) :
    (phase2 s).positions = s.positions ∧
    (phase2 s).colors.length = s.colors.length ∧
    (phase2 s).edges = s.edges ∧
    (phase2 s).pressures = s.pressures ∧
    (phase2 s).attractions = s.attractions ∧
    (phase2 s).num_neighbors = s.num_neighbors ∧
    (phase2 s).num_particles = s.num_particles ∧
    (phase2 s).influence_radius = s.influence_radius :=
  foldl_colorStep_pres (List.range s.num_particles) s

/-- The first two loops of `update` change neither the structural data nor
the array lengths, so they preserve the full invariant. -/
theorem phase12_invFull (s : ParticleSystem) (h : InvFull s) :
    InvFull (phase2 (phase1 s)) := by
  obtain ⟨hlen, hvalid, hclosed⟩ := h
  obtain ⟨q1, q2, q3, q4, q5, q6, q7, q8⟩ := phase1_spec s
  obtain ⟨r1, r2, r3, r4, r5, r6, r7, r8⟩ := phase2_spec (phase1 s)
  refine ⟨⟨?_, ?_, ?_, ?_, ?_, ?_⟩, ?_, ?_⟩
  · rw [r1, q5, r7, q3]; exact hlen.1
  · rw [r2, q1, r7, q3]; exact hlen.2.1
  · rw [r3, q2, r7, q3]; exact hlen.2.2.1
  · rw [r4, q6, r7, q3]; exact hlen.2.2.2.1
  · rw [r5, q7, r7, q3]; exact hlen.2.2.2.2.1
  · rw [r6, q8, r7, q3]; exact hlen.2.2.2.2.2
  · intro i hi
    rw [r7, q3] at hi
    rw [r3, q2, r7, q3]
    exact hvalid i hi
  · intro i hi
    rw [r7, q3] at hi
    rw [r3, q2]
    exact hclosed i hi

theorem update_invFull (s : ParticleSystem) (g : Rng) (h : InvFull s) :
    InvFull (s.update g).1 := by
  rw [update_eq]
  set s2 := phase2 (phase1 s) with hs2
  have h2 : InvFull s2 := phase12_invFull s h
  unfold phase3
  refine foldl_splitStep_invFull _ (s2, g) s2.edges.length ?_ ?_ h2
  · intro e he
    simpa using he
  · exact le_of_eq h2.1.2.2.1

theorem update_count (s : ParticleSystem) (g : Rng) :
    s.num_particles ≤ (s.update g).1.num_particles ∧
    (s.update g).1.num_particles ≤ s.num_particles + s.edges.length := by
  rw [update_eq]
  obtain ⟨q1, q2, q3, q4, q5, q6, q7, q8⟩ := phase1_spec s
  obtain ⟨r1, r2, r3, r4, r5, r6, r7, r8⟩ := phase2_spec (phase1 s)
  have hc := foldl_splitStep_count
    (List.range ((phase2 (phase1 s)).edges.length)) (phase2 (phase1 s), g)
  unfold phase3
  simp only [List.length_range] at hc
  rw [r7, q3] at hc
  have hel : (phase2 (phase1 s)).edges.length = s.edges.length := by rw [r3, q2]
  omega

theorem update_IR (s : ParticleSystem) (g : Rng) :
    (s.update g).1.influence_radius = s.influence_radius := by
  rw [update_eq]
  have h3 := foldl_splitStep_IR
    (List.range ((phase2 (phase1 s)).edges.length)) (phase2 (phase1 s), g)
  unfold phase3
  rw [h3]
  exact (phase2_spec (phase1 s)).2.2.2.2.2.2.2.trans (phase1_spec s).2.2.2.1

theorem runSteps_invFull (s : ParticleSystem) (g : Rng) (h : InvFull s) :
    ∀ k, InvFull (runSteps s g k).1 := by
  intro k
  induction k with
  | zero => exact h
  | succ k ih => exact update_invFull _ _ ih

theorem wrap_pred (k n : ℕ) (hk : k < n) :
    wrap ((k : ℤ) - 1) (n : ℤ) = (k + (n - 1)) % n := by
  unfold wrap
  rcases Nat.eq_zero_or_pos k with hk0 | hkpos
  · subst hk0
    rw [if_pos (by omega)]
    have h1 : ((n : ℤ) - 1).toNat = n - 1 := by omega
    rw [h1, Nat.zero_add, Nat.mod_eq_of_lt (by omega)]
  · rw [if_neg (by omega), if_neg (by omega)]
    have h1 : ((k : ℤ) - 1).toNat = k - 1 := by omega
    have h2 : k + (n - 1) = (k - 1) + n := by omega
    rw [h1, h2, Nat.add_mod_right, Nat.mod_eq_of_lt (by omega)]

theorem wrap_succ (k n : ℕ) (hk : k < n) :
    wrap ((k : ℤ) + 1) (n : ℤ) = (k + 1) % n := by
  unfold wrap
  rw [if_neg (by omega)]
  by_cases hkn : k + 1 = n
  · rw [if_pos (by omega), hkn, Nat.mod_self]
    rfl
  · rw [if_neg (by omega)]
    have h1 : ((k : ℤ) + 1).toNat = k + 1 := by omega
    rw [h1, Nat.mod_eq_of_lt (by omega)]

/-- The link pair `spawn_particles` gives particle `i` of a ring of `n`. -/
def ringEdge (n i : ℕ) : ℕ × ℕ :=
  (wrap ((i : ℤ) - 1) (n : ℤ), wrap ((i : ℤ) + 1) (n : ℤ))

theorem spawnStep_spec (n : ℕ) (r dphi : ℝ) (st : ParticleSystem × ℝ × Rng) (i : ℕ) :
    (spawnStep n r dphi st i).1.edges = st.1.edges ++ [ringEdge n i] ∧
    (spawnStep n r dphi st i).1.positions.length = st.1.positions.length + 1 ∧
    (spawnStep n r dphi st i).1.colors.length = st.1.colors.length + 1 ∧
    (spawnStep n r dphi st i).1.pressures.length = st.1.pressures.length + 1 ∧
    (spawnStep n r dphi st i).1.attractions.length = st.1.attractions.length + 1 ∧
    (spawnStep n r dphi st i).1.num_neighbors.length = st.1.num_neighbors.length + 1 ∧
    (spawnStep n r dphi st i).1.num_particles = st.1.num_particles + 1 ∧
    (spawnStep n r dphi st i).1.influence_radius = st.1.influence_radius := by
  unfold spawnStep ParticleSystem.add_particle ringEdge
  dsimp only
  refine ⟨rfl, ?_, ?_, ?_, ?_, ?_, rfl, rfl⟩ <;> simp

theorem spawn_fold_spec (n : ℕ) (r dphi : ℝ) (m : ℕ) :
    ∀ (s0 : ParticleSystem) (phi0 : ℝ) (g0 : Rng),
    ((List.range m).foldl (spawnStep n r dphi) (s0, phi0, g0)).1.edges =
      s0.edges ++ (List.range m).map (ringEdge n) ∧
    ((List.range m).foldl (spawnStep n r dphi) (s0, phi0, g0)).1.positions.length =
      s0.positions.length + m ∧
    ((List.range m).foldl (spawnStep n r dphi) (s0, phi0, g0)).1.colors.length =
      s0.colors.length + m ∧
    ((List.range m).foldl (spawnStep n r dphi) (s0, phi0, g0)).1.pressures.length =
      s0.pressures.length + m ∧
    ((List.range m).foldl (spawnStep n r dphi) (s0, phi0, g0)).1.attractions.length =
      s0.attractions.length + m ∧
    ((List.range m).foldl (spawnStep n r dphi) (s0, phi0, g0)).1.num_neighbors.length =
      s0.num_neighbors.length + m ∧
    ((List.range m).foldl (spawnStep n r dphi) (s0, phi0, g0)).1.num_particles =
      s0.num_particles + m ∧
    ((List.range m).foldl (spawnStep n r dphi) (s0, phi0, g0)).1.influence_radius =
      s0.influence_radius := by
  induction m with
  | zero => intro s0 phi0 g0; simp
  | succ m ih =>
    intro s0 phi0 g0
    simp only [List.range_succ, List.foldl_append, List.foldl_cons, List.foldl_nil]
    obtain ⟨e1, e2, e3, e4, e5, e6, e7, e8⟩ := ih s0 phi0 g0
    obtain ⟨f1, f2, f3, f4, f5, f6, f7, f8⟩ := spawnStep_spec n r dphi
      ((List.range m).foldl (spawnStep n r dphi) (s0, phi0, g0)) m
    refine ⟨?_, ?_, ?_, ?_, ?_, ?_, ?_, ?_⟩
    · rw [f1, e1, List.map_append, List.map_cons, List.map_nil, List.append_assoc]
    · rw [f2, e2]; omega
    · rw [f3, e3]; omega
    · rw [f4, e4]; omega
    · rw [f5, e5]; omega
    · rw [f6, e6]; omega
    · rw [f7, e7]; omega
    · rw [f8, e8]

/-- The system produced by `spawn_particles` on a fresh `ParticleSystem::new()`,
as `model()` constructs it. -/
noncomputable def spawnSys (n : ℕ) (r : ℝ) (g : Rng) : ParticleSystem :=
  (ParticleSystem.new.spawn_particles n r g).1

theorem spawnSys_spec (n : ℕ) (r : ℝ) (g : Rng) :
    (spawnSys n r g).num_particles = n ∧
    (spawnSys n r g).edges = (List.range n).map (ringEdge n) ∧
    lengthsOk (spawnSys n r g) ∧
    (spawnSys n r g).influence_radius = 12 := by
  obtain ⟨e1, e2, e3, e4, e5, e6, e7, e8⟩ :=
    spawn_fold_spec n r ((2 * Real.pi) / (n : ℝ)) n ParticleSystem.new 0 g
  have hnum : (spawnSys n r g).num_particles = n := rfl
  have hedges : (spawnSys n r g).edges =
      ((List.range n).foldl (spawnStep n r ((2 * Real.pi) / (n : ℝ)))
        (ParticleSystem.new, 0, g)).1.edges := rfl
  refine ⟨hnum, ?_, ⟨?_, ?_, ?_, ?_, ?_, ?_⟩, ?_⟩
  · rw [hedges, e1]
    rfl
  · show ((List.range n).foldl _ (ParticleSystem.new, 0, g)).1.positions.length = _
    rw [e2, hnum]
    simp [ParticleSystem.new]
  · show ((List.range n).foldl _ (ParticleSystem.new, 0, g)).1.colors.length = _
    rw [e3, hnum]
    simp [ParticleSystem.new]
  · show ((List.range n).foldl _ (ParticleSystem.new, 0, g)).1.edges.length = _
    rw [e1, hnum]
    simp [ParticleSystem.new]
  · show ((List.range n).foldl _ (ParticleSystem.new, 0, g)).1.pressures.length = _
    rw [e4, hnum]
    simp [ParticleSystem.new]
  · show ((List.range n).foldl _ (ParticleSystem.new, 0, g)).1.attractions.length = _
    rw [e5, hnum]
    simp [ParticleSystem.new]
  · show ((List.range n).foldl _ (ParticleSystem.new, 0, g)).1.num_neighbors.length = _
    rw [e6, hnum]
    simp [ParticleSystem.new]
  · show ((List.range n).foldl _ (ParticleSystem.new, 0, g)).1.influence_radius = _
    rw [e8]
    rfl

theorem getD_map_range {α} (n k : ℕ) (f : ℕ → α) (d : α) (hk : k < n) :
    ((List.range n).map f).getD k d = f k := by
  simp [List.getD_eq_getElem?_getD, List.getElem?_range hk]

theorem spawnSys_edges_getD (n : ℕ) (r : ℝ) (g : Rng) (k : ℕ) (hk : k < n) :
    (spawnSys n r g).edges.getD k (0, 0) = ((k + (n - 1)) % n, (k + 1) % n) := by
  rw [(spawnSys_spec n r g).2.1, getD_map_range n k (ringEdge n) _ hk]
  unfold ringEdge
  rw [wrap_pred k n hk, wrap_succ k n hk]

theorem spawnSys_invFull (n : ℕ) (r : ℝ) (g : Rng) (hn : 1 ≤ n) :
    InvFull (spawnSys n r g) := by
  obtain ⟨hnum, hedges, hlen, hir⟩ := spawnSys_spec n r g
  refine ⟨hlen, ?_, ?_⟩
  · intro i hi
    rw [hnum] at hi
    rw [hnum, spawnSys_edges_getD n r g i hi]
    exact ⟨Nat.mod_lt _ (by omega), Nat.mod_lt _ (by omega)⟩
  · intro i hi
    rw [hnum] at hi
    rw [spawnSys_edges_getD n r g i hi]
    have ha : (i + (n - 1)) % n < n := Nat.mod_lt _ (by omega)
    have hb : (i + 1) % n < n := Nat.mod_lt _ (by omega)
    rw [spawnSys_edges_getD n r g _ ha, spawnSys_edges_getD n r g _ hb]
    dsimp only
    constructor
    · rw [Nat.mod_add_mod]
      have h1 : i + (n - 1) + 1 = i + n := by omega
      rw [h1, Nat.add_mod_right, Nat.mod_eq_of_lt hi]
    · rw [Nat.mod_add_mod]
      have h1 : i + 1 + (n - 1) = i + n := by omega
      rw [h1, Nat.add_mod_right, Nat.mod_eq_of_lt hi]

/-- The successor map of the link structure. -/
noncomputable def nextId (s : ParticleSystem) (k : ℕ) : ℕ := (s.edges.getD k (0, 0)).2

theorem spawnSys_cycle (n : ℕ) (r : ℝ) (g : Rng) (hn : 1 ≤ n) :
    ∀ m : ℕ, (nextId (spawnSys n r g))^[m] 0 = m % n := by
  intro m
  induction m with
  | zero => simp [Nat.zero_mod]
  | succ m ih =>
    rw [Function.iterate_succ_apply', ih]
    unfold nextId
    rw [spawnSys_edges_getD n r g (m % n) (Nat.mod_lt _ (by omega))]
    dsimp only
    rw [Nat.mod_add_mod]

theorem neighbors_fold_mem (s : ParticleSystem) (i : ℕ) (l : List ℕ) :
    ∀ (acc : List ℕ) (j : ℕ),
    (j ∈ l.foldl (fun neighbors j' =>
      if i = j' then neighbors
      else if (Vec2.sub (s.positions.getD i Vec2.zero)
          (s.positions.getD j' Vec2.zero)).magnitude ≤ s.influence_radius
        then neighbors ++ [j'] else neighbors) acc) ↔
    (j ∈ acc ∨ (j ∈ l ∧ i ≠ j ∧ (Vec2.sub (s.positions.getD i Vec2.zero)
      (s.positions.getD j Vec2.zero)).magnitude ≤ s.influence_radius)) := by
  induction l with
  | nil => simp
  | cons a t ih =>
    intro acc j
    simp only [List.foldl_cons]
    rw [ih]
    by_cases h1 : i = a
    · rw [if_pos h1]
      constructor
      · rintro (h | ⟨hm, hne, hd⟩)
        · exact Or.inl h
        · exact Or.inr ⟨List.mem_cons_of_mem a hm, hne, hd⟩
      · rintro (h | ⟨hm, hne, hd⟩)
        · exact Or.inl h
        · rcases List.mem_cons.mp hm with rfl | hm'
          · exact absurd h1 hne
          · exact Or.inr ⟨hm', hne, hd⟩
    · rw [if_neg h1]
      by_cases h2 : (Vec2.sub (s.positions.getD i Vec2.zero)
          (s.positions.getD a Vec2.zero)).magnitude ≤ s.influence_radius
      · rw [if_pos h2]
        constructor
        · rintro (h | ⟨hm, hne, hd⟩)
          · rcases List.mem_append.mp h with h' | h'
            · exact Or.inl h'
            · rcases List.mem_singleton.mp h' with rfl
              exact Or.inr ⟨List.mem_cons_self j t, h1, h2⟩
          · exact Or.inr ⟨List.mem_cons_of_mem a hm, hne, hd⟩
        · rintro (h | ⟨hm, hne, hd⟩)
          · exact Or.inl (List.mem_append.mpr (Or.inl h))
          · rcases List.mem_cons.mp hm with rfl | hm'
            · exact Or.inl (List.mem_append.mpr (Or.inr (List.mem_singleton.mpr rfl)))
            · exact Or.inr ⟨hm', hne, hd⟩
      · rw [if_neg h2]
        constructor
        · rintro (h | ⟨hm, hne, hd⟩)
          · exact Or.inl h
          · exact Or.inr ⟨List.mem_cons_of_mem a hm, hne, hd⟩
        · rintro (h | ⟨hm, hne, hd⟩)
          · exact Or.inl h
          · rcases List.mem_cons.mp hm with rfl | hm'
            · exact absurd hd h2
            · exact Or.inr ⟨hm', hne, hd⟩

/-- Membership characterization of `get_neighbors_of_particle`: every other
id within `influence_radius`, the two direct links included. -/
theorem mem_get_neighbors (s : ParticleSystem) (i j : ℕ) :
    j ∈ s.get_neighbors_of_particle i ↔
      (j < s.num_particles ∧ i ≠ j ∧
        (Vec2.sub (s.positions.getD i Vec2.zero)
          (s.positions.getD j Vec2.zero)).magnitude ≤ s.influence_radius) := by
  unfold ParticleSystem.get_neighbors_of_particle
  rw [neighbors_fold_mem]
  simp [List.mem_range]

theorem magnitude_axis (a : ℝ) : Vec2.magnitude ⟨a, 0⟩ = |a| := by
  unfold Vec2.magnitude
  norm_num [Real.sqrt_sq_eq_abs]

/-- A fixed random stream (every draw is 1, so no split fires). -/
noncomputable def rngOne : Rng := ⟨fun _ => 1, 0⟩

/-- A small concrete two-particle system used to instantiate theorems:
two mutually linked particles 4 units apart, well inside the influence
radius of 12. -/
noncomputable def cexSys : ParticleSystem where
  particle_radius := 4
  influence_radius := 12
  max_pressure_index := 0
  max_attraction_index := 0
  max_neighbors_index := 0
  num_particles := 2
  positions := [⟨0, 0⟩, ⟨4, 0⟩]
  colors := [⟨0.5, 0.5, 0.5, 1⟩, ⟨0.5, 0.5, 0.5, 1⟩]
  edges := [(1, 1), (0, 0)]
  pressures := [⟨0, 0⟩, ⟨0, 0⟩]
  attractions := [⟨0, 0⟩, ⟨0, 0⟩]
  num_neighbors := [0, 0]

theorem cexSys_invFull : InvFull cexSys := by
  refine ⟨⟨rfl, rfl, rfl, rfl, rfl, rfl⟩, ?_, ?_⟩
  · unfold edgesValid
    decide
  · unfold closedTopology
    decide

theorem cexSys_dist01 :
    (Vec2.sub (cexSys.positions.getD 0 Vec2.zero)
      (cexSys.positions.getD 1 Vec2.zero)).magnitude = 4 := by
  have h1 : cexSys.positions.getD 0 Vec2.zero = ⟨0, 0⟩ := rfl
  have h2 : cexSys.positions.getD 1 Vec2.zero = ⟨4, 0⟩ := rfl
  have h3 : Vec2.sub ⟨0, 0⟩ ⟨4, 0⟩ = ⟨-4, 0⟩ := by
    unfold Vec2.sub
    refine Vec2.ext ?_ ?_ <;> norm_num
  rw [h1, h2, h3, magnitude_axis]
  norm_num

/-- C1 (as stated): FALSE.  `get_neighbors_of_particle` does not exclude the
direct links: in `cexSys`, particle 1 is `next(0)` yet it is returned as a
neighbor of 0, contradicting "the result never contains prev(i) or next(i)". -/
theorem C1_counterexample :
    1 ∈ cexSys.get_neighbors_of_particle 0 ∧ (cexSys.edges.getD 0 (0, 0)).2 = 1 := by
  constructor
  · rw [mem_get_neighbors]
    refine ⟨by decide, by decide, ?_⟩
    rw [cexSys_dist01]
    show (4 : ℝ) ≤ cexSys.influence_radius
    have h : cexSys.influence_radius = 12 := rfl
    rw [h]
    norm_num
  · rfl

/-- C1 (amended): for every particle id `i`, `get_neighbors_of_particle`
returns exactly the set of ids `j` with `j ≠ i` and Euclidean distance
between the current positions of `i` and `j` at most `influence_radius`;
only the particle itself is excluded — the direct links `prev(i)` and
`next(i)` are NOT excluded. -/
theorem C1_neighbors_characterization (s : ParticleSystem) (i j : ℕ) :
    j ∈ s.get_neighbors_of_particle i ↔
      (j < s.num_particles ∧ j ≠ i ∧
        (Vec2.sub (s.positions.getD i Vec2.zero)
          (s.positions.getD j Vec2.zero)).magnitude ≤ s.influence_radius) := by
  rw [mem_get_neighbors]
  constructor
  · rintro ⟨h1, h2, h3⟩
    exact ⟨h1, Ne.symm h2, h3⟩
  · rintro ⟨h1, h2, h3⟩
    exact ⟨h1, Ne.symm h2, h3⟩

/-- C2: topology closure (`next(prev(i)) = i` and `prev(next(i)) = i` for
every particle) holds after spawn and is preserved by every number of
`update` steps, splits included. -/
theorem C2_topology_closure (n : ℕ) (r : ℝ) (g g2 : Rng) (k : ℕ) (hn : 3 ≤ n) :
    closedTopology (runSteps (spawnSys n r g) g2 k).1 :=
  (runSteps_invFull (spawnSys n r g) g2 (spawnSys_invFull n r g (by omega)) k).2.2

theorem C2_witness :
    3 ≤ 3 ∧ closedTopology (runSteps (spawnSys 3 100 rngOne) rngOne 0).1 :=
  ⟨le_refl 3, C2_topology_closure 3 100 rngOne rngOne 0 (le_refl 3)⟩

/-- C3: splitting a linked pair `p0, p1 = next(p0)` creates exactly one new
particle whose id is the particle count before the call, linked `(p0, p1)`,
with `next(p0)` and `prev(p1)` rewired to it and the count up by one. -/
theorem C3_split_correctness (s : ParticleSystem) (p0 p1 : ℕ) (h : InvFull s)
    (hp0 : p0 < s.num_particles) (hlink : (s.edges.getD p0 (0, 0)).2 = p1) :
    (s.split_at p0 p1).num_particles = s.num_particles + 1 ∧
    (s.split_at p0 p1).edges.getD s.num_particles (0, 0) = (p0, p1) ∧
    ((s.split_at p0 p1).edges.getD p0 (0, 0)).2 = s.num_particles ∧
    ((s.split_at p0 p1).edges.getD p1 (0, 0)).1 = s.num_particles := by
  have hp1 : p1 < s.num_particles := hlink ▸ (h.2.1 p0 hp0).2
  obtain ⟨d2, d3, d4, _, _, _⟩ := split_at_spec s p0 p1 h.1.1 h.1.2.2.1 hp0 hp1
  exact ⟨(split_at_basic s p0 p1).1, d2, d3, d4⟩

theorem C3_witness :
    InvFull cexSys ∧ 0 < cexSys.num_particles ∧ (cexSys.edges.getD 0 (0, 0)).2 = 1 ∧
    ((cexSys.split_at 0 1).num_particles = cexSys.num_particles + 1 ∧
      (cexSys.split_at 0 1).edges.getD cexSys.num_particles (0, 0) = (0, 1) ∧
      ((cexSys.split_at 0 1).edges.getD 0 (0, 0)).2 = cexSys.num_particles ∧
      ((cexSys.split_at 0 1).edges.getD 1 (0, 0)).1 = cexSys.num_particles) :=
  ⟨cexSys_invFull, by decide, rfl,
    C3_split_correctness cexSys 0 1 cexSys_invFull (by decide) rfl⟩

/-- C5: across one `update` the particle count never decreases, and it
increases by at most the number of edges present at the start of the step. -/
theorem C5_growth_monotonicity (s : ParticleSystem) (g : Rng) :
    s.num_particles ≤ (s.update g).1.num_particles ∧
    (s.update g).1.num_particles ≤ s.num_particles + s.edges.length :=
  update_count s g

/-- C6: spawning `n ≥ 3` particles creates exactly `n` particles whose links
are `((k-1) mod n, (k+1) mod n)`, and following `next` from particle 0
traverses `0, 1, 2, …` modulo `n` — a single cycle through all `n` ids. -/
theorem C6_spawn_ring (n : ℕ) (r : ℝ) (g : Rng) (hn : 3 ≤ n) :
    (spawnSys n r g).num_particles = n ∧
    (∀ k, k < n →
      (spawnSys n r g).edges.getD k (0, 0) = ((k + (n - 1)) % n, (k + 1) % n)) ∧
    (∀ m : ℕ, (nextId (spawnSys n r g))^[m] 0 = m % n) :=
  ⟨(spawnSys_spec n r g).1, fun k hk => spawnSys_edges_getD n r g k hk,
    spawnSys_cycle n r g (by omega)⟩

theorem C6_witness :
    3 ≤ 3 ∧
    ((spawnSys 3 100 rngOne).num_particles = 3 ∧
      (∀ k, k < 3 →
        (spawnSys 3 100 rngOne).edges.getD k (0, 0) = ((k + 2) % 3, (k + 1) % 3)) ∧
      (∀ m : ℕ, (nextId (spawnSys 3 100 rngOne))^[m] 0 = m % 3)) :=
  ⟨le_refl 3, C6_spawn_ring 3 100 rngOne (le_refl 3)⟩

/-- C7 (as stated): FALSE.  `spawn_particles` performs no argument
validation: called with `count = 2 < 3` it returns normally and creates two
particles instead of failing with `InvalidArgument`. -/
theorem C7_counterexample :
    (ParticleSystem.new.spawn_particles 2 100 rngOne).1.num_particles = 2 := rfl

/-- C7 (amended): `spawn_particles` never fails: for every count and radius
(including `count < 3` and nonpositive radius) it returns normally and sets
the particle count to the requested count; no `InvalidArgument` error path
exists in the code. -/
theorem C7_no_validation (n : ℕ) (r : ℝ) (g : Rng) :
    (ParticleSystem.new.spawn_particles n r g).1.num_particles = n := rfl

/-- C8: from a seeded system, after any number of steps all six parallel
arrays have length equal to the particle count, every id stored in `edges`
is strictly below the count, and storage is append-only (the count never
shrinks step over step). -/
theorem C8_index_safety (n : ℕ) (r : ℝ) (g g2 : Rng) (k : ℕ) (hn : 3 ≤ n) :
    lengthsOk (runSteps (spawnSys n r g) g2 k).1 ∧
    edgesValid (runSteps (spawnSys n r g) g2 k).1 ∧
    (runSteps (spawnSys n r g) g2 k).1.num_particles ≤
      (runSteps (spawnSys n r g) g2 (k + 1)).1.num_particles := by
  have h := runSteps_invFull (spawnSys n r g) g2 (spawnSys_invFull n r g (by omega)) k
  exact ⟨h.1, h.2.1, (update_count _ _).1⟩

theorem C8_witness :
    3 ≤ 3 ∧
    (lengthsOk (runSteps (spawnSys 3 100 rngOne) rngOne 0).1 ∧
      edgesValid (runSteps (spawnSys 3 100 rngOne) rngOne 0).1 ∧
      (runSteps (spawnSys 3 100 rngOne) rngOne 0).1.num_particles ≤
        (runSteps (spawnSys 3 100 rngOne) rngOne 1).1.num_particles) :=
  ⟨le_refl 3, C8_index_safety 3 100 rngOne rngOne 0 (le_refl 3)⟩

theorem magnitude_mk_le (a b r : ℝ) (hr : 0 ≤ r) :
    Vec2.magnitude ⟨a, b⟩ ≤ r ↔ a ^ 2 + b ^ 2 ≤ r ^ 2 := by
  unfold Vec2.magnitude
  exact Real.sqrt_le_left hr

theorem lt_magnitude_mk (a b r : ℝ) (hr : 0 ≤ r) :
    r < Vec2.magnitude ⟨a, b⟩ ↔ r ^ 2 < a ^ 2 + b ^ 2 := by
  unfold Vec2.magnitude
  exact Real.lt_sqrt hr

/-- The pressure of a particle with no discovered neighbors is zero. -/
theorem pressVec_nil (s : ParticleSystem) (i : ℕ) : pressVec s i [] = Vec2.zero := by
  unfold pressVec pressureSum Vec2.limit_magnitude
  rw [List.foldl_nil, if_neg]
  rw [not_lt, show Vec2.zero = (⟨0, 0⟩ : Vec2) from rfl]
  unfold Vec2.magnitude
  norm_num

theorem stepBody_num_neighbors (old : List Vec2) (s : ParticleSystem) (i : ℕ) :
    (stepBody old s i).num_neighbors =
      s.num_neighbors.set i (s.get_neighbors_of_particle i).length := by
  rw [stepBody_eq]
  rw [(applyPressure_spec _ _ _).2.2.2.2.2.1]
  unfold midState
  rw [(applyAttraction_spec _ _ _).2.2.2.2.2.1]
  rw [(recordNeighbors_spec _ _ _).2.2.2.2.2.1]

theorem attrVec_congr (old : List Vec2) (s t : ParticleSystem) (i : ℕ)
    (h : t.edges = s.edges) : attrVec old t i = attrVec old s i := by
  unfold attrVec
  rw [h]

theorem stepBody_attractions (old : List Vec2) (s : ParticleSystem) (i : ℕ) :
    (stepBody old s i).attractions = s.attractions.set i (attrVec old s i) := by
  rw [stepBody_eq]
  rw [(applyPressure_spec _ _ _).2.2.2.2.1]
  unfold midState
  rw [(applyAttraction_spec _ _ _).2.2.2.2.1]
  rw [(recordNeighbors_spec _ _ _).2.2.2.2.1]
  rw [attrVec_congr old s (recordNeighbors s i (s.get_neighbors_of_particle i)) i
    (recordNeighbors_spec _ _ _).2.2.1]

theorem stepBody_pressures (old : List Vec2) (s : ParticleSystem) (i : ℕ) :
    (stepBody old s i).pressures =
      s.pressures.set i
        (pressVec (midState old s i) i (s.get_neighbors_of_particle i)) := by
  rw [stepBody_eq]
  rw [(applyPressure_spec _ _ _).2.2.2.1]
  congr 1
  unfold midState
  rw [(applyAttraction_spec _ _ _).2.2.2.1]
  rw [(recordNeighbors_spec _ _ _).2.2.2.1]

theorem midState_positions (old : List Vec2) (s : ParticleSystem) (i : ℕ) :
    (midState old s i).positions =
      s.positions.set i
        (Vec2.add (s.positions.getD i Vec2.zero) ((attrVec old s i).smul 0.6)) := by
  unfold midState
  rw [(applyAttraction_spec _ _ _).1]
  rw [(recordNeighbors_spec _ _ _).1]
  rw [attrVec_congr old s (recordNeighbors s i (s.get_neighbors_of_particle i)) i
    (recordNeighbors_spec _ _ _).2.2.1]

theorem midState_IR (old : List Vec2) (s : ParticleSystem) (i : ℕ) :
    (midState old s i).influence_radius = s.influence_radius := by
  unfold midState
  rw [(applyAttraction_spec _ _ _).2.2.2.2.2.2.2]
  rw [(recordNeighbors_spec _ _ _).2.2.2.2.2.2.2]

theorem stepBody_positions (old : List Vec2) (s : ParticleSystem) (i : ℕ)
    (hi : i < s.positions.length) :
    (stepBody old s i).positions =
      s.positions.set i
        (Vec2.add
          (Vec2.add (s.positions.getD i Vec2.zero) ((attrVec old s i).smul 0.6))
          ((pressVec (midState old s i) i (s.get_neighbors_of_particle i)).smul 0.2)) := by
  rw [stepBody_eq]
  rw [(applyPressure_spec _ _ _).1]
  rw [midState_positions, List.set_set]
  congr 1
  rw [getD_set_self _ _ _ _ hi]

/-- The state reached by the force loop before it processes particle `i`. -/
noncomputable def phase1Upto (s : ParticleSystem) (i : ℕ) : ParticleSystem :=
  (List.range i).foldl (stepBody s.positions) s

theorem foldl_range_decomp {α} (f : α → ℕ → α) (n i : ℕ) (hi : i < n) (s : α) :
    (List.range n).foldl f s =
      ((List.range (n - i - 1)).map (fun x => i + 1 + x)).foldl f
        (f ((List.range i).foldl f s) i) := by
  conv_lhs => rw [show n = i + 1 + (n - i - 1) by omega]
  rw [List.range_add, List.foldl_append, List.range_succ, List.foldl_append]
  simp

theorem stepBody_getD_ne (old : List Vec2) (s : ParticleSystem) {i j : ℕ} (h : j ≠ i) :
    (stepBody old s j).attractions.getD i Vec2.zero = s.attractions.getD i Vec2.zero ∧
    (stepBody old s j).pressures.getD i Vec2.zero = s.pressures.getD i Vec2.zero := by
  rw [stepBody_attractions, stepBody_pressures]
  exact ⟨getD_set_ne _ _ _ h, getD_set_ne _ _ _ h⟩

theorem foldl_stepBody_getD_ne (old : List Vec2) (l : List ℕ) (i : ℕ)
    (hl : ∀ j ∈ l, j ≠ i) :
    ∀ s : ParticleSystem,
    (l.foldl (stepBody old) s).attractions.getD i Vec2.zero =
      s.attractions.getD i Vec2.zero ∧
    (l.foldl (stepBody old) s).pressures.getD i Vec2.zero =
      s.pressures.getD i Vec2.zero := by
  induction l with
  | nil => intro s; exact ⟨rfl, rfl⟩
  | cons a t ih =>
    intro s
    simp only [List.foldl_cons]
    have h1 := stepBody_getD_ne old s (hl a (by simp))
    have h2 := ih (fun j hj => hl j (by simp [hj])) (stepBody old s a)
    exact ⟨h2.1.trans h1.1, h2.2.trans h1.2⟩

theorem phase1_attr_press (s : ParticleSystem) (i : ℕ) (hi : i < s.num_particles) :
    (phase1 s).attractions.getD i Vec2.zero =
      (stepBody s.positions (phase1Upto s i) i).attractions.getD i Vec2.zero ∧
    (phase1 s).pressures.getD i Vec2.zero =
      (stepBody s.positions (phase1Upto s i) i).pressures.getD i Vec2.zero := by
  unfold phase1 phase1Upto
  rw [foldl_range_decomp _ _ i hi]
  refine foldl_stepBody_getD_ne _ _ i ?_ _
  intro j hj
  simp only [List.mem_map, List.mem_range] at hj
  omega

/-- Values the force loop stores for particle `i`: the attraction is the
`attrVec` over the frozen snapshot and the original links; the pressure is
the `pressVec` of the partially updated state `phase1Upto s i` after its own
attraction has been applied (`midState`), over the neighbors discovered from
those in-loop positions. -/
theorem phase1_values (s : ParticleSystem) (hlen : lengthsOk s) (i : ℕ)
    (hi : i < s.num_particles) :
    (phase1 s).attractions.getD i Vec2.zero = attrVec s.positions s i ∧
    (phase1 s).pressures.getD i Vec2.zero =
      pressVec (midState s.positions (phase1Upto s i) i) i
        ((phase1Upto s i).get_neighbors_of_particle i) := by
  obtain ⟨hA, hP⟩ := phase1_attr_press s i hi
  have hpres := foldl_stepBody_pres s.positions (List.range i) s
  have hlenA : (phase1Upto s i).attractions.length = s.attractions.length :=
    hpres.2.2.2.2.2.2.1
  have hlenP : (phase1Upto s i).pressures.length = s.pressures.length :=
    hpres.2.2.2.2.2.1
  have hedges : (phase1Upto s i).edges = s.edges := hpres.2.1
  constructor
  · rw [hA, stepBody_attractions,
      getD_set_self _ _ _ _ (by rw [hlenA, hlen.2.2.2.2.1]; omega)]
    exact attrVec_congr s.positions s (phase1Upto s i) i hedges
  · rw [hP, stepBody_pressures,
      getD_set_self _ _ _ _ (by rw [hlenP, hlen.2.2.2.1]; omega)]

theorem split_at_appends (s : ParticleSystem) (p0 p1 : ℕ) :
    (s.split_at p0 p1).pressures = s.pressures ++ [Vec2.zero] ∧
    (s.split_at p0 p1).attractions = s.attractions ++ [Vec2.zero] ∧
    (s.split_at p0 p1).colors = s.colors ++
      [Rgba.divS (Rgba.add (s.colors.getD p0 ⟨0, 0, 0, 0⟩)
        (s.colors.getD p1 ⟨0, 0, 0, 0⟩)) 2] :=
  ⟨rfl, rfl, rfl⟩

theorem splitStep_getD_keep (st : ParticleSystem × Rng) (e i : ℕ)
    (h1 : i < st.1.pressures.length) (h2 : i < st.1.attractions.length)
    (h3 : i < st.1.colors.length) :
    (splitStep st e).1.pressures.getD i Vec2.zero = st.1.pressures.getD i Vec2.zero ∧
    (splitStep st e).1.attractions.getD i Vec2.zero = st.1.attractions.getD i Vec2.zero ∧
    (splitStep st e).1.colors.getD i ⟨0, 0, 0, 0⟩ = st.1.colors.getD i ⟨0, 0, 0, 0⟩ := by
  rcases splitStep_cases st e with hc | hc <;> rw [hc]
  · exact ⟨rfl, rfl, rfl⟩
  · obtain ⟨a1, a2, a3⟩ := split_at_appends st.1 e (st.1.edges.getD e (0, 0)).2
    rw [a1, a2, a3]
    exact ⟨getD_append_lt _ _ _ _ h1, getD_append_lt _ _ _ _ h2, getD_append_lt _ _ _ _ h3⟩

theorem splitStep_len (st : ParticleSystem × Rng) (e : ℕ) :
    st.1.pressures.length ≤ (splitStep st e).1.pressures.length ∧
    st.1.attractions.length ≤ (splitStep st e).1.attractions.length ∧
    st.1.colors.length ≤ (splitStep st e).1.colors.length := by
  rcases splitStep_cases st e with hc | hc <;> rw [hc]
  · exact ⟨le_refl _, le_refl _, le_refl _⟩
  · have hb := split_at_basic st.1 e (st.1.edges.getD e (0, 0)).2
    exact ⟨by omega, by omega, by omega⟩

theorem foldl_splitStep_getD (l : List ℕ) :
    ∀ (st : ParticleSystem × Rng) (i : ℕ),
    i < st.1.pressures.length → i < st.1.attractions.length → i < st.1.colors.length →
    (l.foldl splitStep st).1.pressures.getD i Vec2.zero =
      st.1.pressures.getD i Vec2.zero ∧
    (l.foldl splitStep st).1.attractions.getD i Vec2.zero =
      st.1.attractions.getD i Vec2.zero ∧
    (l.foldl splitStep st).1.colors.getD i ⟨0, 0, 0, 0⟩ =
      st.1.colors.getD i ⟨0, 0, 0, 0⟩ := by
  induction l with
  | nil => intro st i _ _ _; exact ⟨rfl, rfl, rfl⟩
  | cons a t ih =>
    intro st i h1 h2 h3
    simp only [List.foldl_cons]
    have hk := splitStep_getD_keep st a i h1 h2 h3
    have hlen := splitStep_len st a
    have hnext := ih (splitStep st a) i (by omega) (by omega) (by omega)
    exact ⟨hnext.1.trans hk.1, hnext.2.1.trans hk.2.1, hnext.2.2.trans hk.2.2⟩

/-- The attraction and pressure a full `update` records for particle `i`. -/
theorem update_values (s : ParticleSystem) (g : Rng) (i : ℕ)
    (hlen : lengthsOk s) (hi : i < s.num_particles) :
    (s.update g).1.attractions.getD i Vec2.zero = attrVec s.positions s i ∧
    (s.update g).1.pressures.getD i Vec2.zero =
      pressVec (midState s.positions (phase1Upto s i) i) i
        ((phase1Upto s i).get_neighbors_of_particle i) := by
  rw [update_eq]
  unfold phase3
  obtain ⟨q1, q2, q3, q4, q5, q6, q7, q8⟩ := phase1_spec s
  obtain ⟨r1, r2, r3, r4, r5, r6, r7, r8⟩ := phase2_spec (phase1 s)
  have hkeep := foldl_splitStep_getD
    (List.range ((phase2 (phase1 s)).edges.length)) (phase2 (phase1 s), g) i
    (by rw [r4, q6, hlen.2.2.2.1]; omega)
    (by rw [r5, q7, hlen.2.2.2.2.1]; omega)
    (by rw [r2, q1, hlen.2.1]; omega)
  have hv := phase1_values s hlen i hi
  refine ⟨?_, ?_⟩
  · rw [hkeep.2.1, r5]
    exact hv.1
  · rw [hkeep.1, r4]
    exact hv.2

theorem cex_pos0 : cexSys.positions.getD 0 Vec2.zero = (⟨0, 0⟩ : Vec2) := rfl

theorem cex_pos1 : cexSys.positions.getD 1 Vec2.zero = (⟨4, 0⟩ : Vec2) := rfl

theorem cex_IR : cexSys.influence_radius = 12 := rfl

theorem cex_nb0 : cexSys.get_neighbors_of_particle 0 = [1] := by
  unfold ParticleSystem.get_neighbors_of_particle
  have hr : List.range cexSys.num_particles = [0, 1] := rfl
  rw [hr]
  simp only [List.foldl_cons, List.foldl_nil]
  have hd : (Vec2.sub (cexSys.positions.getD 0 Vec2.zero)
      (cexSys.positions.getD 1 Vec2.zero)).magnitude ≤ cexSys.influence_radius := by
    rw [cex_pos0, cex_pos1, cex_IR]
    simp only [Vec2.sub]
    rw [magnitude_mk_le _ _ _ (by norm_num)]
    norm_num
  simp
  exact hd

theorem cex_attr0 : attrVec cexSys.positions cexSys 0 = (⟨4, 0⟩ : Vec2) := by
  unfold attrVec
  rw [show cexSys.edges.getD 0 (0, 0) = ((1, 1) : ℕ × ℕ) from rfl]
  dsimp only
  rw [cex_pos0, cex_pos1]
  simp only [Vec2.add, Vec2.divS, Vec2.sub]
  norm_num [Vec2.mk.injEq]

theorem cex_mid0_pos : (midState cexSys.positions cexSys 0).positions =
    [(⟨12 / 5, 0⟩ : Vec2), ⟨4, 0⟩] := by
  rw [midState_positions, cex_attr0, cex_pos0]
  rw [show cexSys.positions = [(⟨0, 0⟩ : Vec2), ⟨4, 0⟩] from rfl]
  simp only [List.set_cons_zero, Vec2.add, Vec2.smul]
  norm_num [Vec2.mk.injEq]

theorem cex_press0 :
    pressVec (midState cexSys.positions cexSys 0) 0 [1] = (⟨-4 / 15, 0⟩ : Vec2) := by
  unfold pressVec pressureSum
  simp only [List.foldl_cons, List.foldl_nil]
  rw [cex_mid0_pos, midState_IR, cex_IR]
  rw [show ([(⟨12 / 5, 0⟩ : Vec2), ⟨4, 0⟩]).getD 0 Vec2.zero = (⟨12 / 5, 0⟩ : Vec2) from rfl,
    show ([(⟨12 / 5, 0⟩ : Vec2), ⟨4, 0⟩]).getD 1 Vec2.zero = (⟨4, 0⟩ : Vec2) from rfl]
  have hv : Vec2.add Vec2.zero
      (Vec2.divS (Vec2.sub ⟨12 / 5, 0⟩ ⟨4, 0⟩) ((12 : ℝ) * 0.5)) = (⟨-4 / 15, 0⟩ : Vec2) := by
    simp only [Vec2.add, Vec2.divS, Vec2.sub, Vec2.zero]
    norm_num [Vec2.mk.injEq]
  rw [hv]
  unfold Vec2.limit_magnitude
  rw [if_neg]
  rw [lt_magnitude_mk _ _ _ (by norm_num)]
  norm_num

theorem cex_t0_pos : (stepBody cexSys.positions cexSys 0).positions =
    [(⟨176 / 75, 0⟩ : Vec2), ⟨4, 0⟩] := by
  rw [stepBody_positions _ _ _ (by decide), cex_nb0, cex_attr0, cex_press0, cex_pos0]
  rw [show cexSys.positions = [(⟨0, 0⟩ : Vec2), ⟨4, 0⟩] from rfl]
  simp only [List.set_cons_zero, Vec2.add, Vec2.smul]
  norm_num [Vec2.mk.injEq]

theorem cex_nb1 :
    (stepBody cexSys.positions cexSys 0).get_neighbors_of_particle 1 = [0] := by
  have ht0 := stepBody_pres cexSys.positions cexSys 0
  unfold ParticleSystem.get_neighbors_of_particle
  have hr : List.range (stepBody cexSys.positions cexSys 0).num_particles = [0, 1] := by
    rw [ht0.2.2.1]
    rfl
  rw [hr, cex_t0_pos, ht0.2.2.2.1, cex_IR]
  have hd : (Vec2.sub (⟨4, 0⟩ : Vec2) ⟨176 / 75, 0⟩).magnitude ≤ (12 : ℝ) := by
    simp only [Vec2.sub]
    rw [magnitude_mk_le _ _ _ (by norm_num)]
    norm_num
  simp
  exact hd

theorem cex_attr1 :
    attrVec cexSys.positions (stepBody cexSys.positions cexSys 0) 1 = (⟨-4, 0⟩ : Vec2) := by
  have ht0 := stepBody_pres cexSys.positions cexSys 0
  unfold attrVec
  rw [ht0.2.1]
  rw [show cexSys.edges.getD 1 (0, 0) = ((0, 0) : ℕ × ℕ) from rfl]
  dsimp only
  rw [cex_pos0, cex_pos1]
  simp only [Vec2.add, Vec2.divS, Vec2.sub]
  norm_num [Vec2.mk.injEq]

theorem cex_mid1_pos :
    (midState cexSys.positions (stepBody cexSys.positions cexSys 0) 1).positions =
      [(⟨176 / 75, 0⟩ : Vec2), ⟨8 / 5, 0⟩] := by
  rw [midState_positions, cex_attr1, cex_t0_pos]
  rw [show ([(⟨176 / 75, 0⟩ : Vec2), ⟨4, 0⟩]).getD 1 Vec2.zero = (⟨4, 0⟩ : Vec2) from rfl]
  simp only [List.set_cons_succ, List.set_cons_zero, Vec2.add, Vec2.smul]
  norm_num [Vec2.mk.injEq]

theorem cex_press1 :
    pressVec (midState cexSys.positions (stepBody cexSys.positions cexSys 0) 1) 1 [0] =
      (⟨-28 / 225, 0⟩ : Vec2) := by
  have ht0 := stepBody_pres cexSys.positions cexSys 0
  unfold pressVec pressureSum
  simp only [List.foldl_cons, List.foldl_nil]
  rw [cex_mid1_pos, midState_IR, ht0.2.2.2.1, cex_IR]
  rw [show ([(⟨176 / 75, 0⟩ : Vec2), ⟨8 / 5, 0⟩]).getD 1 Vec2.zero =
      (⟨8 / 5, 0⟩ : Vec2) from rfl,
    show ([(⟨176 / 75, 0⟩ : Vec2), ⟨8 / 5, 0⟩]).getD 0 Vec2.zero =
      (⟨176 / 75, 0⟩ : Vec2) from rfl]
  have hv : Vec2.add Vec2.zero
      (Vec2.divS (Vec2.sub ⟨8 / 5, 0⟩ ⟨176 / 75, 0⟩) ((12 : ℝ) * 0.5)) =
        (⟨-28 / 225, 0⟩ : Vec2) := by
    simp only [Vec2.add, Vec2.divS, Vec2.sub, Vec2.zero]
    norm_num [Vec2.mk.injEq]
  rw [hv]
  unfold Vec2.limit_magnitude
  rw [if_neg]
  rw [lt_magnitude_mk _ _ _ (by norm_num)]
  norm_num

/-- The pressure as the spec's words state it for claim C4 (a definition
written for comparison, not taken from the source): the sum over the
non-linked neighbors within `influence_radius` of
`(position_i - position_j) / (influence_radius * 0.5)` computed entirely
over the frozen start-of-step positions, magnitude-limited to 2. -/
noncomputable def specFrozenPressure (s : ParticleSystem) (i : ℕ) : Vec2 :=
  ((List.range s.num_particles).foldl (fun pr j =>
    if j = i ∨ j = (s.edges.getD i (0, 0)).1 ∨ j = (s.edges.getD i (0, 0)).2 then pr
    else if (Vec2.sub (s.positions.getD i Vec2.zero)
        (s.positions.getD j Vec2.zero)).magnitude ≤ s.influence_radius
      then Vec2.add pr (Vec2.divS
        (Vec2.sub (s.positions.getD i Vec2.zero) (s.positions.getD j Vec2.zero))
        (s.influence_radius * 0.5))
      else pr) Vec2.zero).limit_magnitude 2

theorem limit_magnitude_zero : Vec2.zero.limit_magnitude 2 = Vec2.zero := by
  unfold Vec2.limit_magnitude Vec2.zero
  rw [if_neg]
  rw [lt_magnitude_mk _ _ _ (by norm_num)]
  norm_num

theorem cex_spec_frozen : specFrozenPressure cexSys 1 = Vec2.zero := by
  unfold specFrozenPressure
  have hr : List.range cexSys.num_particles = [0, 1] := rfl
  rw [hr]
  simp only [List.foldl_cons, List.foldl_nil]
  rw [if_pos (by decide : (0 = 1 ∨ 0 = (cexSys.edges.getD 1 (0, 0)).1 ∨
    0 = (cexSys.edges.getD 1 (0, 0)).2))]
  rw [if_pos (Or.inl trivial)]
  exact limit_magnitude_zero

/-- C4 (as stated): FALSE.  The attraction is indeed computed from the frozen
start-of-step snapshot, but the pressure is not: it is computed from the
in-loop, partially updated positions (and from a neighbor set that includes
the direct links).  On `cexSys` the spec's frozen-snapshot pressure for
particle 1 is the zero vector (its only in-range non-linked neighbor set is
empty), while the code stores the nonzero vector (-28/225, 0). -/
theorem C4_counterexample :
    (cexSys.update rngOne).1.pressures.getD 1 Vec2.zero ≠ specFrozenPressure cexSys 1 := by
  have hv := (update_values cexSys rngOne 1 cexSys_invFull.1 (by decide)).2
  have hup : phase1Upto cexSys 1 = stepBody cexSys.positions cexSys 0 := rfl
  rw [hup] at hv
  rw [cex_nb1, cex_press1] at hv
  rw [hv, cex_spec_frozen]
  intro hcon
  have hx := congrArg Vec2.x hcon
  unfold Vec2.zero at hx
  dsimp only at hx
  norm_num at hx

/-- C4 (amended): within one step, the attraction for particle `i` is the
midpoint of its two linked neighbors' start-of-step positions minus its own
start-of-step position (frozen snapshot, as claimed); the pressure, however,
is computed from the current in-loop positions: it is the magnitude-limited
(cap 2) sum of `(position_i - position_j) / (influence_radius * 0.5)` over
the neighbors discovered from the partially updated positions (links
included), with `position_i` taken after `i`'s own attraction displacement;
it is the zero vector when that neighbor set is empty. -/
theorem C4_forces (s : ParticleSystem) (g : Rng) (i : ℕ)
    (hlen : lengthsOk s) (hi : i < s.num_particles) :
    (s.update g).1.attractions.getD i Vec2.zero = attrVec s.positions s i ∧
    (s.update g).1.pressures.getD i Vec2.zero =
      pressVec (midState s.positions (phase1Upto s i) i) i
        ((phase1Upto s i).get_neighbors_of_particle i) ∧
    ((phase1Upto s i).get_neighbors_of_particle i = [] →
      (s.update g).1.pressures.getD i Vec2.zero = Vec2.zero) := by
  obtain ⟨h1, h2⟩ := update_values s g i hlen hi
  refine ⟨h1, h2, ?_⟩
  intro hnil
  rw [h2, hnil, pressVec_nil]

theorem C4_witness :
    lengthsOk cexSys ∧ 0 < cexSys.num_particles ∧
    ((cexSys.update rngOne).1.attractions.getD 0 Vec2.zero =
        attrVec cexSys.positions cexSys 0 ∧
      (cexSys.update rngOne).1.pressures.getD 0 Vec2.zero =
        pressVec (midState cexSys.positions (phase1Upto cexSys 0) 0) 0
          ((phase1Upto cexSys 0).get_neighbors_of_particle 0) ∧
      ((phase1Upto cexSys 0).get_neighbors_of_particle 0 = [] →
        (cexSys.update rngOne).1.pressures.getD 0 Vec2.zero = Vec2.zero)) :=
  ⟨cexSys_invFull.1, by decide,
    C4_forces cexSys rngOne 0 cexSys_invFull.1 (by decide)⟩

theorem recordNeighbors_max (s : ParticleSystem) (i : ℕ) (nb : List ℕ) :
    (recordNeighbors s i nb).max_neighbors_index =
      (if (s.num_neighbors.set i nb.length).getD s.max_neighbors_index 0 < nb.length
        then i else s.max_neighbors_index) ∧
    (recordNeighbors s i nb).max_pressure_index = s.max_pressure_index ∧
    (recordNeighbors s i nb).max_attraction_index = s.max_attraction_index := by
  unfold recordNeighbors
  dsimp only
  by_cases hc : (s.num_neighbors.set i nb.length).getD s.max_neighbors_index 0 < nb.length
  · rw [if_pos hc, if_pos hc]
    exact ⟨rfl, rfl, rfl⟩
  · rw [if_neg hc, if_neg hc]
    exact ⟨rfl, rfl, rfl⟩

theorem applyAttraction_max (old_positions : List Vec2) (s : ParticleSystem) (i : ℕ) :
    (applyAttraction old_positions s i).max_attraction_index =
      (if ((s.attractions.set i (attrVec old_positions s i)).getD
          s.max_attraction_index Vec2.zero).magnitude <
            (attrVec old_positions s i).magnitude
        then i else s.max_attraction_index) ∧
    (applyAttraction old_positions s i).max_pressure_index = s.max_pressure_index ∧
    (applyAttraction old_positions s i).max_neighbors_index = s.max_neighbors_index := by
  unfold applyAttraction
  dsimp only
  by_cases hc : ((s.attractions.set i (attrVec old_positions s i)).getD
      s.max_attraction_index Vec2.zero).magnitude < (attrVec old_positions s i).magnitude
  · rw [if_pos hc, if_pos hc]
    exact ⟨rfl, rfl, rfl⟩
  · rw [if_neg hc, if_neg hc]
    exact ⟨rfl, rfl, rfl⟩

theorem applyPressure_max (s : ParticleSystem) (i : ℕ) (nb : List ℕ) :
    (applyPressure s i nb).max_pressure_index =
      (if ((s.pressures.set i (pressVec s i nb)).getD
          s.max_pressure_index Vec2.zero).magnitude < (pressVec s i nb).magnitude
        then i else s.max_pressure_index) ∧
    (applyPressure s i nb).max_attraction_index = s.max_attraction_index ∧
    (applyPressure s i nb).max_neighbors_index = s.max_neighbors_index := by
  unfold applyPressure
  dsimp only
  by_cases hc : ((s.pressures.set i (pressVec s i nb)).getD
      s.max_pressure_index Vec2.zero).magnitude < (pressVec s i nb).magnitude
  · rw [if_pos hc, if_pos hc]
    exact ⟨rfl, rfl, rfl⟩
  · rw [if_neg hc, if_neg hc]
    exact ⟨rfl, rfl, rfl⟩

/-- Two systems that agree on everything except (possibly) their colors. -/
def EqNC (s t : ParticleSystem) : Prop :=
  s.influence_radius = t.influence_radius ∧
  s.max_pressure_index = t.max_pressure_index ∧
  s.max_attraction_index = t.max_attraction_index ∧
  s.max_neighbors_index = t.max_neighbors_index ∧
  s.num_particles = t.num_particles ∧
  s.positions = t.positions ∧
  s.edges = t.edges ∧
  s.pressures = t.pressures ∧
  s.attractions = t.attractions ∧
  s.num_neighbors = t.num_neighbors

theorem get_neighbors_congr {s t : ParticleSystem} (i : ℕ)
    (h1 : s.num_particles = t.num_particles) (h2 : s.positions = t.positions)
    (h3 : s.influence_radius = t.influence_radius) :
    s.get_neighbors_of_particle i = t.get_neighbors_of_particle i := by
  unfold ParticleSystem.get_neighbors_of_particle
  rw [h1, h2, h3]

theorem pressVec_congr {s t : ParticleSystem} (i : ℕ) (nb : List ℕ)
    (h2 : s.positions = t.positions) (h3 : s.influence_radius = t.influence_radius) :
    pressVec s i nb = pressVec t i nb := by
  unfold pressVec pressureSum
  rw [h2, h3]

theorem recordNeighbors_EqNC {s t : ParticleSystem} (i : ℕ) (nb : List ℕ)
    (h : EqNC s t) : EqNC (recordNeighbors s i nb) (recordNeighbors t i nb) := by
  obtain ⟨e1, e2, e3, e4, e5, e6, e7, e8, e9, e10⟩ := h
  obtain ⟨m1, m2, m3⟩ := recordNeighbors_max s i nb
  obtain ⟨n1, n2, n3⟩ := recordNeighbors_max t i nb
  have hs := recordNeighbors_spec s i nb
  have ht := recordNeighbors_spec t i nb
  refine ⟨?_, ?_, ?_, ?_, ?_, ?_, ?_, ?_, ?_, ?_⟩
  · rw [hs.2.2.2.2.2.2.2, ht.2.2.2.2.2.2.2, e1]
  · rw [m2, n2, e2]
  · rw [m3, n3, e3]
  · rw [m1, n1, e10, e4]
  · rw [hs.2.2.2.2.2.2.1, ht.2.2.2.2.2.2.1, e5]
  · rw [hs.1, ht.1, e6]
  · rw [hs.2.2.1, ht.2.2.1, e7]
  · rw [hs.2.2.2.1, ht.2.2.2.1, e8]
  · rw [hs.2.2.2.2.1, ht.2.2.2.2.1, e9]
  · rw [hs.2.2.2.2.2.1, ht.2.2.2.2.2.1, e10]

theorem applyAttraction_EqNC (old_positions : List Vec2) {s t : ParticleSystem} (i : ℕ)
    (h : EqNC s t) :
    EqNC (applyAttraction old_positions s i) (applyAttraction old_positions t i) := by
  obtain ⟨e1, e2, e3, e4, e5, e6, e7, e8, e9, e10⟩ := h
  have ha : attrVec old_positions s i = attrVec old_positions t i := by
    unfold attrVec
    rw [e7]
  obtain ⟨m1, m2, m3⟩ := applyAttraction_max old_positions s i
  obtain ⟨n1, n2, n3⟩ := applyAttraction_max old_positions t i
  have hs := applyAttraction_spec old_positions s i
  have ht := applyAttraction_spec old_positions t i
  refine ⟨?_, ?_, ?_, ?_, ?_, ?_, ?_, ?_, ?_, ?_⟩
  · rw [hs.2.2.2.2.2.2.2, ht.2.2.2.2.2.2.2, e1]
  · rw [m2, n2, e2]
  · rw [m1, n1, e9, e3, ha]
  · rw [m3, n3, e4]
  · rw [hs.2.2.2.2.2.2.1, ht.2.2.2.2.2.2.1, e5]
  · rw [hs.1, ht.1, e6, ha]
  · rw [hs.2.2.1, ht.2.2.1, e7]
  · rw [hs.2.2.2.1, ht.2.2.2.1, e8]
  · rw [hs.2.2.2.2.1, ht.2.2.2.2.1, e9, ha]
  · rw [hs.2.2.2.2.2.1, ht.2.2.2.2.2.1, e10]

theorem applyPressure_EqNC {s t : ParticleSystem} (i : ℕ) (nb : List ℕ)
    (h : EqNC s t) : EqNC (applyPressure s i nb) (applyPressure t i nb) := by
  obtain ⟨e1, e2, e3, e4, e5, e6, e7, e8, e9, e10⟩ := h
  have hp : pressVec s i nb = pressVec t i nb := pressVec_congr i nb e6 e1
  obtain ⟨m1, m2, m3⟩ := applyPressure_max s i nb
  obtain ⟨n1, n2, n3⟩ := applyPressure_max t i nb
  have hs := applyPressure_spec s i nb
  have ht := applyPressure_spec t i nb
  refine ⟨?_, ?_, ?_, ?_, ?_, ?_, ?_, ?_, ?_, ?_⟩
  · rw [hs.2.2.2.2.2.2.2, ht.2.2.2.2.2.2.2, e1]
  · rw [m1, n1, e8, e2, hp]
  · rw [m2, n2, e3]
  · rw [m3, n3, e4]
  · rw [hs.2.2.2.2.2.2.1, ht.2.2.2.2.2.2.1, e5]
  · rw [hs.1, ht.1, e6, hp]
  · rw [hs.2.2.1, ht.2.2.1, e7]
  · rw [hs.2.2.2.1, ht.2.2.2.1, e8, hp]
  · rw [hs.2.2.2.2.1, ht.2.2.2.2.1, e9]
  · rw [hs.2.2.2.2.2.1, ht.2.2.2.2.2.1, e10]

theorem stepBody_EqNC (old_positions : List Vec2) {s t : ParticleSystem} (i : ℕ)
    (h : EqNC s t) : EqNC (stepBody old_positions s i) (stepBody old_positions t i) := by
  have hnb : s.get_neighbors_of_particle i = t.get_neighbors_of_particle i :=
    get_neighbors_congr i h.2.2.2.2.1 h.2.2.2.2.2.1 h.1
  rw [stepBody_eq, stepBody_eq, ← hnb]
  unfold midState
  rw [← hnb]
  exact applyPressure_EqNC i _
    (applyAttraction_EqNC old_positions i (recordNeighbors_EqNC i _ h))

theorem colorStep_others (s : ParticleSystem) (i : ℕ) :
    (colorStep s i).max_pressure_index = s.max_pressure_index ∧
    (colorStep s i).max_attraction_index = s.max_attraction_index ∧
    (colorStep s i).max_neighbors_index = s.max_neighbors_index :=
  ⟨rfl, rfl, rfl⟩

theorem colorStep_EqNC {s t : ParticleSystem} (i : ℕ) (h : EqNC s t) :
    EqNC (colorStep s i) (colorStep t i) := by
  obtain ⟨e1, e2, e3, e4, e5, e6, e7, e8, e9, e10⟩ := h
  have hs := colorStep_spec s i
  have ht := colorStep_spec t i
  obtain ⟨m1, m2, m3⟩ := colorStep_others s i
  obtain ⟨n1, n2, n3⟩ := colorStep_others t i
  refine ⟨?_, ?_, ?_, ?_, ?_, ?_, ?_, ?_, ?_, ?_⟩
  · rw [hs.2.2.2.2.2.2.2, ht.2.2.2.2.2.2.2, e1]
  · rw [m1, n1, e2]
  · rw [m2, n2, e3]
  · rw [m3, n3, e4]
  · rw [hs.2.2.2.2.2.2.1, ht.2.2.2.2.2.2.1, e5]
  · rw [hs.1, ht.1, e6]
  · rw [hs.2.2.1, ht.2.2.1, e7]
  · rw [hs.2.2.2.1, ht.2.2.2.1, e8]
  · rw [hs.2.2.2.2.1, ht.2.2.2.2.1, e9]
  · rw [hs.2.2.2.2.2.1, ht.2.2.2.2.2.1, e10]

theorem foldl_stepBody_EqNC (old_positions : List Vec2) (l : List ℕ) :
    ∀ {s t : ParticleSystem}, EqNC s t →
    EqNC (l.foldl (stepBody old_positions) s) (l.foldl (stepBody old_positions) t) := by
  induction l with
  | nil => intro s t h; exact h
  | cons a tl ih =>
    intro s t h
    simp only [List.foldl_cons]
    exact ih (stepBody_EqNC old_positions a h)

theorem foldl_colorStep_EqNC (l : List ℕ) :
    ∀ {s t : ParticleSystem}, EqNC s t →
    EqNC (l.foldl colorStep s) (l.foldl colorStep t) := by
  induction l with
  | nil => intro s t h; exact h
  | cons a tl ih =>
    intro s t h
    simp only [List.foldl_cons]
    exact ih (colorStep_EqNC a h)

theorem split_at_more (s : ParticleSystem) (p0 p1 : ℕ) :
    (s.split_at p0 p1).positions = s.positions ++
      [Vec2.add (Vec2.add
        (Vec2.divS (Vec2.add (s.positions.getD p0 Vec2.zero)
          (s.positions.getD p1 Vec2.zero)) 2)
        (s.pressures.getD p0 Vec2.zero)) (s.pressures.getD p1 Vec2.zero)] ∧
    (s.split_at p0 p1).num_neighbors = s.num_neighbors ++ [0] ∧
    (s.split_at p0 p1).max_pressure_index = s.max_pressure_index ∧
    (s.split_at p0 p1).max_attraction_index = s.max_attraction_index ∧
    (s.split_at p0 p1).max_neighbors_index = s.max_neighbors_index :=
  ⟨rfl, rfl, rfl, rfl, rfl⟩

theorem split_at_EqNC {s t : ParticleSystem} (p0 p1 : ℕ) (h : EqNC s t) :
    EqNC (s.split_at p0 p1) (t.split_at p0 p1) := by
  obtain ⟨e1, e2, e3, e4, e5, e6, e7, e8, e9, e10⟩ := h
  have hs := split_at_more s p0 p1
  have ht := split_at_more t p0 p1
  have hsa := split_at_appends s p0 p1
  have hta := split_at_appends t p0 p1
  have hsb := split_at_basic s p0 p1
  have htb := split_at_basic t p0 p1
  refine ⟨?_, ?_, ?_, ?_, ?_, ?_, ?_, ?_, ?_, ?_⟩
  · rw [hsb.2.1, htb.2.1, e1]
  · rw [hs.2.2.1, ht.2.2.1, e2]
  · rw [hs.2.2.2.1, ht.2.2.2.1, e3]
  · rw [hs.2.2.2.2, ht.2.2.2.2, e4]
  · rw [hsb.1, htb.1, e5]
  · rw [hs.1, ht.1, e6, e8]
  · rw [split_at_edges, split_at_edges, e6, e7]
  · rw [hsa.1, hta.1, e8]
  · rw [hsa.2.1, hta.2.1, e9]
  · rw [hs.2.1, ht.2.1, e10]

theorem splitStep_EqNC {s t : ParticleSystem} (g : Rng) (e : ℕ) (h : EqNC s t) :
    EqNC (splitStep (s, g) e).1 (splitStep (t, g) e).1 ∧
    (splitStep (s, g) e).2 = (splitStep (t, g) e).2 := by
  have e7 := h.2.2.2.2.2.2.1
  have e10 := h.2.2.2.2.2.2.2.2.2
  unfold splitStep
  dsimp only
  rw [e7, e10]
  by_cases hc : t.num_neighbors.getD e 0 +
      t.num_neighbors.getD (t.edges.getD e (0, 0)).2 0 < 16
  · rw [if_pos hc, if_pos hc]
    by_cases hr : (g.next).1 < 0.05
    · rw [if_pos hr, if_pos hr]
      exact ⟨split_at_EqNC e (t.edges.getD e (0, 0)).2 h, rfl⟩
    · rw [if_neg hr, if_neg hr]
      exact ⟨h, rfl⟩
  · rw [if_neg hc, if_neg hc]
    exact ⟨h, rfl⟩

theorem foldl_splitStep_EqNC (l : List ℕ) :
    ∀ {s t : ParticleSystem} (g : Rng), EqNC s t →
    EqNC (l.foldl splitStep (s, g)).1 (l.foldl splitStep (t, g)).1 ∧
    (l.foldl splitStep (s, g)).2 = (l.foldl splitStep (t, g)).2 := by
  induction l with
  | nil => intro s t g h; exact ⟨h, rfl⟩
  | cons a tl ih =>
    intro s t g h
    simp only [List.foldl_cons]
    have h1 := splitStep_EqNC g a h
    have hpair_s : splitStep (s, g) a =
        ((splitStep (s, g) a).1, (splitStep (s, g) a).2) := rfl
    have hpair_t : splitStep (t, g) a =
        ((splitStep (t, g) a).1, (splitStep (t, g) a).2) := rfl
    rw [hpair_s, hpair_t, ← h1.2]
    exact ih ((splitStep (s, g) a).2) h1.1

theorem update_EqNC {s t : ParticleSystem} (g : Rng) (h : EqNC s t) :
    EqNC (s.update g).1 (t.update g).1 ∧ (s.update g).2 = (t.update g).2 := by
  rw [update_eq, update_eq]
  have h1 : EqNC (phase1 s) (phase1 t) := by
    unfold phase1
    rw [h.2.2.2.2.1, h.2.2.2.2.2.1]
    exact foldl_stepBody_EqNC t.positions (List.range t.num_particles) h
  have h2 : EqNC (phase2 (phase1 s)) (phase2 (phase1 t)) := by
    unfold phase2
    rw [h1.2.2.2.2.1]
    exact foldl_colorStep_EqNC (List.range (phase1 t).num_particles) h1
  unfold phase3
  rw [show (phase2 (phase1 s)).edges.length = (phase2 (phase1 t)).edges.length
    from by rw [h2.2.2.2.2.2.2.1]]
  exact foldl_splitStep_EqNC _ g h2

/-- The color `colorStep` assigns: normalized pressure magnitude, normalized
attraction magnitude, their product plus 0.1, and alpha 1. -/
noncomputable def colorVal (s : ParticleSystem) (i : ℕ) : Rgba :=
  let p := (s.pressures.getD i Vec2.zero).magnitude /
    (s.pressures.getD s.max_pressure_index Vec2.zero).magnitude
  let a := (s.attractions.getD i Vec2.zero).magnitude /
    (s.attractions.getD s.max_attraction_index Vec2.zero).magnitude
  ⟨p, a, p * a + 0.1, 1⟩

theorem colorStep_colors (s : ParticleSystem) (i : ℕ) :
    (colorStep s i).colors = s.colors.set i (colorVal s i) := rfl

theorem colorVal_congr {s t : ParticleSystem} (i : ℕ)
    (hp : s.pressures = t.pressures) (ha : s.attractions = t.attractions)
    (hmp : s.max_pressure_index = t.max_pressure_index)
    (hma : s.max_attraction_index = t.max_attraction_index) :
    colorVal s i = colorVal t i := by
  unfold colorVal
  rw [hp, ha, hmp, hma]

theorem foldl_colorStep_getD_ne (l : List ℕ) (i : ℕ) (hl : ∀ j ∈ l, j ≠ i) :
    ∀ s : ParticleSystem,
    (l.foldl colorStep s).colors.getD i ⟨0, 0, 0, 0⟩ =
      s.colors.getD i ⟨0, 0, 0, 0⟩ := by
  induction l with
  | nil => intro s; rfl
  | cons a tl ih =>
    intro s
    simp only [List.foldl_cons]
    rw [ih (fun j hj => hl j (by simp [hj])) (colorStep s a), colorStep_colors,
      getD_set_ne _ _ _ (hl a (by simp))]

theorem foldl_colorStep_max (l : List ℕ) :
    ∀ s : ParticleSystem,
    (l.foldl colorStep s).max_pressure_index = s.max_pressure_index ∧
    (l.foldl colorStep s).max_attraction_index = s.max_attraction_index := by
  induction l with
  | nil => intro s; exact ⟨rfl, rfl⟩
  | cons a tl ih =>
    intro s
    simp only [List.foldl_cons]
    exact ⟨(ih (colorStep s a)).1, (ih (colorStep s a)).2⟩

theorem phase2_colors (s : ParticleSystem) (i : ℕ) (hi : i < s.num_particles)
    (hclen : s.colors.length = s.num_particles) :
    (phase2 s).colors.getD i ⟨0, 0, 0, 0⟩ = colorVal s i := by
  unfold phase2
  rw [foldl_range_decomp colorStep s.num_particles i hi s]
  rw [foldl_colorStep_getD_ne _ i
    (by intro j hj; simp only [List.mem_map, List.mem_range] at hj; omega) _]
  have hu := foldl_colorStep_pres (List.range i) s
  have hm := foldl_colorStep_max (List.range i) s
  rw [colorStep_colors, getD_set_self _ _ _ _ (by rw [hu.2.1, hclen]; omega)]
  exact colorVal_congr i hu.2.2.2.1 hu.2.2.2.2.1 hm.1 hm.2

theorem update_colors (s : ParticleSystem) (g : Rng) (i : ℕ)
    (hlen : lengthsOk s) (hi : i < s.num_particles) :
    (s.update g).1.colors.getD i ⟨0, 0, 0, 0⟩ = colorVal (phase1 s) i := by
  rw [update_eq]
  unfold phase3
  obtain ⟨q1, q2, q3, q4, q5, q6, q7, q8⟩ := phase1_spec s
  obtain ⟨r1, r2, r3, r4, r5, r6, r7, r8⟩ := phase2_spec (phase1 s)
  have hkeep := foldl_splitStep_getD
    (List.range ((phase2 (phase1 s)).edges.length)) (phase2 (phase1 s), g) i
    (by rw [r4, q6, hlen.2.2.2.1]; omega)
    (by rw [r5, q7, hlen.2.2.2.2.1]; omega)
    (by rw [r2, q1, hlen.2.1]; omega)
  rw [hkeep.2.2]
  exact phase2_colors (phase1 s) i (by rw [q3]; exact hi) (by rw [q1, q3, hlen.2.1])

/-- Two states identical except for their neighbor-count diagnostics, used
to show the color does not depend on them. -/
noncomputable def nnSysA : ParticleSystem := { cexSys with num_neighbors := [1, 1] }

noncomputable def nnSysB : ParticleSystem := { cexSys with num_neighbors := [1, 2] }

/-- C9 (as stated): FALSE.  The color written by the recoloring loop is not a
function of the normalized neighbor count: the code computes it (lines
150-152) but never uses it in the color (line 153).  Two states that differ
only in their neighbor counts — and whose normalized neighbor-count
diagnostics differ — receive identical colors. -/
theorem C9_counterexample :
    (colorStep nnSysA 1).colors = (colorStep nnSysB 1).colors ∧
    (1 - (nnSysA.num_neighbors.getD 1 0 : ℝ) /
        (nnSysA.num_neighbors.getD nnSysA.max_neighbors_index 0 : ℝ)) ≠
      (1 - (nnSysB.num_neighbors.getD 1 0 : ℝ) /
        (nnSysB.num_neighbors.getD nnSysB.max_neighbors_index 0 : ℝ)) := by
  constructor
  · rfl
  · rw [show nnSysA.num_neighbors.getD 1 0 = 1 from rfl,
      show nnSysA.num_neighbors.getD nnSysA.max_neighbors_index 0 = 1 from rfl,
      show nnSysB.num_neighbors.getD 1 0 = 2 from rfl,
      show nnSysB.num_neighbors.getD nnSysB.max_neighbors_index 0 = 1 from rfl]
    norm_num

/-- C9 (amended): after the positions update, every particle's display color
is recomputed as `(p, a, p*a + 0.1, 1)` from the normalized pressure and
attraction magnitudes of the force phase only — the normalized neighbor
count is computed by the code but unused — and colors feed nothing back
into the physics: replacing the colors by any other list leaves the
positions produced by `update` unchanged. -/
theorem C9_colors (s : ParticleSystem) (g : Rng) (i : ℕ) (c : List Rgba)
    (hlen : lengthsOk s) (hi : i < s.num_particles) :
    (s.update g).1.colors.getD i ⟨0, 0, 0, 0⟩ = colorVal (phase1 s) i ∧
    (({ s with colors := c }).update g).1.positions = (s.update g).1.positions := by
  refine ⟨update_colors s g i hlen hi, ?_⟩
  have heq : EqNC { s with colors := c } s :=
    ⟨rfl, rfl, rfl, rfl, rfl, rfl, rfl, rfl, rfl, rfl⟩
  exact (update_EqNC g heq).1.2.2.2.2.2.1

theorem C9_witness :
    lengthsOk cexSys ∧ 0 < cexSys.num_particles ∧
    ((cexSys.update rngOne).1.colors.getD 0 ⟨0, 0, 0, 0⟩ = colorVal (phase1 cexSys) 0 ∧
      (({ cexSys with colors := [] }).update rngOne).1.positions =
        (cexSys.update rngOne).1.positions) :=
  ⟨cexSys_invFull.1, by decide,
    C9_colors cexSys rngOne 0 [] cexSys_invFull.1 (by decide)⟩

theorem magnitude_nonneg (v : Vec2) : 0 ≤ v.magnitude := Real.sqrt_nonneg _

/-- Division of a vector by a scalar, guarded against near-zero divisors:
`none` when the divisor's absolute value is below 1. -/
noncomputable def safeDivVec (v : Vec2) (d : ℝ) : Option Vec2 :=
  if 1 ≤ |d| then some (v.divS d) else none

/-- The attraction computation with its division guarded. -/
noncomputable def attrVecChecked (old_positions : List Vec2) (s : ParticleSystem)
    (i : ℕ) : Option Vec2 :=
  let e := s.edges.getD i (0, 0)
  (safeDivVec (Vec2.add (old_positions.getD e.1 Vec2.zero)
    (old_positions.getD e.2 Vec2.zero)) 2).map
      (fun m => Vec2.sub m (old_positions.getD i Vec2.zero))

/-- `limit_magnitude` with the division in its scaling branch guarded. -/
noncomputable def limitChecked (v : Vec2) (limit : ℝ) : Option Vec2 :=
  if limit < v.magnitude then
    if 1 ≤ |v.magnitude| then some (v.smul (limit / v.magnitude)) else none
  else some v

/-- The repulsion sum with its divisions guarded. -/
noncomputable def pressureSumChecked (s : ParticleSystem) (i : ℕ)
    (neighbors : List ℕ) : Option Vec2 :=
  neighbors.foldl (fun opr j => opr.bind (fun pr =>
    (safeDivVec (Vec2.sub (s.positions.getD i Vec2.zero)
      (s.positions.getD j Vec2.zero)) (s.influence_radius * 0.5)).map
        (fun q => Vec2.add pr q))) (some Vec2.zero)

/-- The pressure computation with every division guarded. -/
noncomputable def pressVecChecked (s : ParticleSystem) (i : ℕ)
    (neighbors : List ℕ) : Option Vec2 :=
  (pressureSumChecked s i neighbors).bind (fun v => limitChecked v 2)

/-- The position `split_at` gives the inserted particle. -/
noncomputable def splitPos (s : ParticleSystem) (p0 p1 : ℕ) : Vec2 :=
  Vec2.add (Vec2.add
    (Vec2.divS (Vec2.add (s.positions.getD p0 Vec2.zero)
      (s.positions.getD p1 Vec2.zero)) 2)
    (s.pressures.getD p0 Vec2.zero)) (s.pressures.getD p1 Vec2.zero)

theorem split_at_positions (s : ParticleSystem) (p0 p1 : ℕ) :
    (s.split_at p0 p1).positions = s.positions ++ [splitPos s p0 p1] := rfl

/-- The split position computation with its division guarded. -/
noncomputable def splitPosChecked (s : ParticleSystem) (p0 p1 : ℕ) : Option Vec2 :=
  (safeDivVec (Vec2.add (s.positions.getD p0 Vec2.zero)
    (s.positions.getD p1 Vec2.zero)) 2).map
      (fun m => Vec2.add (Vec2.add m (s.pressures.getD p0 Vec2.zero))
        (s.pressures.getD p1 Vec2.zero))

theorem attrVecChecked_eq (old_positions : List Vec2) (s : ParticleSystem) (i : ℕ) :
    attrVecChecked old_positions s i = some (attrVec old_positions s i) := by
  unfold attrVecChecked attrVec safeDivVec
  dsimp only
  rw [if_pos (by norm_num : (1 : ℝ) ≤ |(2 : ℝ)|)]
  rfl

theorem limitChecked_eq (v : Vec2) : limitChecked v 2 = some (v.limit_magnitude 2) := by
  unfold limitChecked Vec2.limit_magnitude
  by_cases h : (2 : ℝ) < v.magnitude
  · rw [if_pos h, if_pos h, if_pos]
    rw [abs_of_nonneg (magnitude_nonneg v)]
    linarith
  · rw [if_neg h, if_neg h]

theorem pressureSumChecked_eq (s : ParticleSystem) (i : ℕ)
    (hIR : 2 ≤ s.influence_radius) (neighbors : List ℕ) :
    pressureSumChecked s i neighbors = some (pressureSum s i neighbors) := by
  unfold pressureSumChecked pressureSum
  have hguard : (1 : ℝ) ≤ |s.influence_radius * 0.5| := by
    rw [abs_of_nonneg (by linarith)]
    linarith
  suffices hgen : ∀ (l : List ℕ) (acc : Vec2),
      l.foldl (fun opr j => opr.bind (fun pr =>
        (safeDivVec (Vec2.sub (s.positions.getD i Vec2.zero)
          (s.positions.getD j Vec2.zero)) (s.influence_radius * 0.5)).map
            (fun q => Vec2.add pr q))) (some acc) =
      some (l.foldl (fun pr j =>
        Vec2.add pr (Vec2.divS
          (Vec2.sub (s.positions.getD i Vec2.zero) (s.positions.getD j Vec2.zero))
          (s.influence_radius * 0.5))) acc) by
    exact hgen neighbors Vec2.zero
  intro l
  induction l with
  | nil => intro acc; rfl
  | cons a t ih =>
    intro acc
    simp only [List.foldl_cons]
    rw [show (some acc).bind (fun pr =>
        (safeDivVec (Vec2.sub (s.positions.getD i Vec2.zero)
          (s.positions.getD a Vec2.zero)) (s.influence_radius * 0.5)).map
            (fun q => Vec2.add pr q)) =
      some (Vec2.add acc (Vec2.divS
        (Vec2.sub (s.positions.getD i Vec2.zero) (s.positions.getD a Vec2.zero))
        (s.influence_radius * 0.5))) from by
        unfold safeDivVec
        rw [if_pos hguard]
        rfl]
    exact ih _

theorem pressVecChecked_eq (s : ParticleSystem) (i : ℕ)
    (hIR : 2 ≤ s.influence_radius) (neighbors : List ℕ) :
    pressVecChecked s i neighbors = some (pressVec s i neighbors) := by
  unfold pressVecChecked pressVec
  rw [pressureSumChecked_eq s i hIR neighbors]
  exact limitChecked_eq _

theorem splitPosChecked_eq (s : ParticleSystem) (p0 p1 : ℕ) :
    splitPosChecked s p0 p1 = some (splitPos s p0 p1) := by
  unfold splitPosChecked splitPos safeDivVec
  rw [if_pos (by norm_num : (1 : ℝ) ≤ |(2 : ℝ)|)]
  rfl

theorem runSteps_IR (s : ParticleSystem) (g : Rng) :
    ∀ k, (runSteps s g k).1.influence_radius = s.influence_radius := by
  intro k
  induction k with
  | zero => rfl
  | succ k ih =>
    show ((runSteps s g k).1.update (runSteps s g k).2).1.influence_radius = _
    rw [update_IR]
    exact ih

/-- C10: every division performed in the attraction, pressure and
split-position computations has a divisor bounded away from zero (absolute
value at least 1) whenever `influence_radius ≥ 2`: the division-guarded
versions of these computations never fail and agree with the originals.
The divisors are the constants 2 and `influence_radius * 0.5`, and — in
the magnitude-limiting branch — a magnitude that is then greater than 2.
Moreover `influence_radius` is 12 on every state reachable from a seeded
system by any number of steps, so the guard holds along every run, and in
this real-number model all positions are (finite) real numbers. -/
theorem C10_no_near_zero_division :
    (∀ (s : ParticleSystem) (old_positions : List Vec2) (i : ℕ) (nb : List ℕ)
      (p0 p1 : ℕ), 2 ≤ s.influence_radius →
      (attrVecChecked old_positions s i = some (attrVec old_positions s i) ∧
       pressVecChecked s i nb = some (pressVec s i nb) ∧
       splitPosChecked s p0 p1 = some (splitPos s p0 p1))) ∧
    (∀ (n : ℕ) (r : ℝ) (g g2 : Rng) (k : ℕ),
      (runSteps (spawnSys n r g) g2 k).1.influence_radius = 12) := by
  constructor
  · intro s old_positions i nb p0 p1 hIR
    exact ⟨attrVecChecked_eq old_positions s i, pressVecChecked_eq s i hIR nb,
      splitPosChecked_eq s p0 p1⟩
  · intro n r g g2 k
    rw [runSteps_IR]
    exact (spawnSys_spec n r g).2.2.2

theorem C10_witness :
    2 ≤ cexSys.influence_radius ∧
    (attrVecChecked cexSys.positions cexSys 0 =
        some (attrVec cexSys.positions cexSys 0) ∧
      pressVecChecked cexSys 0 [1] = some (pressVec cexSys 0 [1]) ∧
      splitPosChecked cexSys 0 1 = some (splitPos cexSys 0 1)) ∧
    (runSteps (spawnSys 3 100 rngOne) rngOne 0).1.influence_radius = 12 :=
  ⟨by rw [cex_IR]; norm_num,
    C10_no_near_zero_division.1 cexSys cexSys.positions 0 [1] 0 1
      (by rw [cex_IR]; norm_num),
    C10_no_near_zero_division.2 3 100 rngOne rngOne 0⟩

end DiffLines
